import Mathlib

set_option maxRecDepth 8000

/-!
# Shallow embedding of the KRL schedule analysis engine

This file embeds the core analysis functions of the repository
(`through.ts`, `analyze.ts`, and the duplicated `ThroughCommand` /
`AnalyzeCommand` implementations of the command module) as executable
Lean definitions, and proves the specification claims about them.

Conventions of the embedding:
* CSV rows are typed records whose fields are the raw strings the code
  reads from `AnyCsv`; a missing column (JS `undefined`, read back with
  `?? ""`) is represented by the empty string.
* JS numbers are modelled as exact rationals plus a `nan` marker
  (`JsNum`). `jsNumber` models the ECMAScript `Number()` conversion on
  the decimal-numeral fragment actually produced by the scraper
  (optional sign, digits, optional fractional part); inputs outside
  that fragment (hex, exponents, `Infinity`) conservatively map to
  `nan`, i.e. are treated as non-numeric.
* JS `Map` objects (insertion-ordered keys) are modelled by
  `groupByKey` / `keyList`: keys in order of first appearance, each
  group being the in-order sublist of rows sharing the key.
* `Array.prototype.sort`, which is stable, is modelled by
  `List.mergeSort` (also stable) with the boolean reflection of the
  source comparator; `localeCompare` on zero-padded `HH:MM:SS` strings
  is modelled by the lexicographic string order.
-/

namespace KRL

/-- A JS number: either `NaN`/non-finite (`nan`) or a finite value,
modelled exactly as a rational. -/
inductive JsNum where
  | nan : JsNum
  | num : ℚ → JsNum
deriving DecidableEq, Repr, Inhabited

/-- Strip leading and trailing whitespace (the trimming `Number()`
performs), written over the character list so that it reduces in the
kernel. -/
def trimList (cs : List Char) : List Char :=
  ((cs.dropWhile Char.isWhitespace).reverse.dropWhile Char.isWhitespace).reverse

/-- Split a character list on a separator character (the semantics of
`String.split` with a one-character separator). -/
def splitOnChar (sep : Char) : List Char → List (List Char)
  | [] => [[]]
  | c :: rest =>
      let r := splitOnChar sep rest
      if c = sep then [] :: r
      else
        match r with
        | [] => [[c]]
        | h :: t => (c :: h) :: t

/-- Value of a string of decimal digits. -/
def decDigitsVal (cs : List Char) : ℚ :=
  ((cs.foldl (fun n c => 10 * n + (c.toNat - 48)) 0 : ℕ) : ℚ)

/-- Parse the body (after the optional sign) of a decimal numeral:
digits, optionally split by one dot. -/
def jsBody (cs : List Char) : Option ℚ :=
  match splitOnChar '.' cs with
  | [d] =>
      if 0 < d.length ∧ d.all Char.isDigit then some (decDigitsVal d) else none
  | [i, f] =>
      if 0 < i.length + f.length ∧ i.all Char.isDigit ∧ f.all Char.isDigit then
        some (decDigitsVal i + decDigitsVal f / (10 : ℚ) ^ f.length)
      else none
  | _ => none

/-- `Number()` on a character list: trimmed empty input converts to
`0`, a signed decimal numeral to its value, anything else to `nan`. -/
def jsNumberCore (cs : List Char) : JsNum :=
  let t := trimList cs
  if t = [] then .num 0
  else
    match t with
    | '-' :: rest =>
        match jsBody rest with
        | some q => .num (-q)
        | none => .nan
    | '+' :: rest =>
        match jsBody rest with
        | some q => .num q
        | none => .nan
    | _ =>
        match jsBody t with
        | some q => .num q
        | none => .nan

/-- Model of the ECMAScript `Number()` conversion on strings, restricted
to finite decimal numerals (see the file comment). -/
def jsNumber (s : String) : JsNum :=
  jsNumberCore s.toList

/-- JS `x || fb` for a number `x` and numeric fallback: `NaN` and `0`
are falsy. -/
def JsNum.orQ (x : JsNum) (fb : ℚ) : ℚ :=
  match x with
  | .nan => fb
  | .num q => if q = 0 then fb else q

/-- JS `x || fb` for a number `x` and a nullable fallback. -/
def JsNum.orOpt (x : JsNum) (fb : Option ℚ) : Option ℚ :=
  match x with
  | .nan => fb
  | .num q => if q = 0 then fb else some q

/-- `toNum` of `analyze.ts`: `Number.isFinite(Number(v)) ? n : null`. -/
def toNum (v : String) : Option ℚ :=
  match jsNumber v with
  | .nan => none
  | .num q => some q

/-- `hmsToMin` of `through.ts`: parse `"HH:MM:SS"` to minutes of day;
`null` when the string is empty (falsy) or hours/minutes are `NaN`;
seconds contribute `Math.floor(s / 60)` (0 when `NaN`). -/
def hmsToMin (hms : String) : Option ℚ :=
  if hms = "" then none
  else
    let parts := splitOnChar ':' hms.toList
    let hN := jsNumberCore (parts.getD 0 [])
    let mN := match parts[1]? with
      | some s => jsNumberCore s
      | none => JsNum.nan
    let sN := match parts[2]? with
      | some s => jsNumberCore s
      | none => jsNumberCore ['0']
    match hN, mN with
    | .num h, .num m =>
        let sAdd : ℚ := match sN with
          | .nan => 0
          | .num s => ((⌊s / 60⌋ : ℤ) : ℚ)
        some (h * 60 + m + sAdd)
    | _, _ => none

/-- Append a key to an insertion-ordered key list if it is new (the
`if (!map.has(k)) map.set(k, [])` idiom of the source). -/
def insertKey (ks : List String) (k : String) : List String :=
  if k ∈ ks then ks else ks ++ [k]

/-- Keys of a JS `Map` built by pushing each row into the group of its
key: keys in order of first appearance. -/
def keyList (key : α → String) (rows : List α) : List String :=
  rows.foldl (fun ks r => insertKey ks (key r)) []

/-- The JS `Map` grouping loops of the source (`byTrain`, `segStats`,
…): an insertion-ordered association of each key with the in-order list
of rows having that key. -/
def groupByKey (key : α → String) (rows : List α) : List (String × List α) :=
  (keyList key rows).map (fun k => (k, rows.filter (fun r => key r == k)))

/-- A row of `stops.csv`, with the columns the analysis code reads. -/
structure StopRow where
  train_id : String
  stop_index : String
  station_name : String
  time_est : String
  time_est_min : String
  ka_name : String
  route_name : String
  color : String
deriving DecidableEq, Repr, Inhabited

/-- A row of `trains.csv` as stored in the trains metadata map. -/
structure TrainMeta where
  dest : String
  ka_name : String
  route_name : String
deriving DecidableEq, Repr, Inhabited

/-- Sort key for stop rows: `Number(r["stop_index"]) || 0`. -/
def stopKey (r : StopRow) : ℚ :=
  (jsNumber r.stop_index).orQ 0

/-- `arr.sort((a, b) => (Number(a["stop_index"]) || 0) - (Number(b["stop_index"]) || 0))`. -/
def sortStops (rows : List StopRow) : List StopRow :=
  rows.mergeSort (fun a b => decide (stopKey a ≤ stopKey b))

/-- Model of JS `toLowerCase` (per-character ASCII case folding,
written as a list map so that it reduces in the kernel). -/
def strLower (s : String) : String :=
  String.mk (s.toList.map Char.toLower)

/-- Case-insensitive station-name match (`toLowerCase` comparison). -/
def isStation (name : String) (r : StopRow) : Bool :=
  strLower r.station_name == strLower name

/-- `ThroughResult` of `through.ts`. -/
structure ThroughResult where
  train_id : String
  ka_name : Option String
  route_name : Option String
  depart_via_time : String
  via_index : ℚ
  continues_to_dest : Bool
deriving DecidableEq, Repr, Inhabited

/-- The per-train body of the `findThrough` loop of `through.ts`:
sort the train's stops, locate via / hub / destination by first index,
and produce a result when `viaIdx < taIdx` and `destIdx > taIdx`. -/
def findThroughTrain (trains : String → Option TrainMeta) (via dest : String)
    (tid : String) (grp : List StopRow) : Option ThroughResult :=
  let arr := sortStops grp
  match arr.findIdx? (isStation via) with
  | none => none
  | some viaIdx =>
    match arr.findIdx? (fun r => strLower r.station_name == strLower "tanah abang") with
    | none => none
    | some taIdx =>
      if viaIdx < taIdx then
        match arr.findIdx? (isStation dest) with
        | some destIdx =>
            if taIdx < destIdx then
              some
                { train_id := tid
                  ka_name := (trains tid).map TrainMeta.ka_name
                  route_name := (trains tid).map TrainMeta.route_name
                  depart_via_time := (arr.getD viaIdx default).time_est
                  via_index := (jsNumber (arr.getD viaIdx default).stop_index).orQ (viaIdx : ℚ)
                  continues_to_dest := true }
            else none
        | none => none
      else none

/-- Comparator of the final `res.sort` of `findThrough` (string compare
of the via departure times). -/
def resultLe (a b : ThroughResult) : Bool :=
  decide (a.depart_via_time ≤ b.depart_via_time)

/-- `findThrough` of `through.ts`. -/
def findThrough (stops : List StopRow) (trains : String → Option TrainMeta)
    (via dest : String) : List ThroughResult :=
  ((groupByKey StopRow.train_id stops).filterMap
    (fun p => findThroughTrain trains via dest p.1 p.2)).mergeSort resultLe

/-- The display metadata copied into transfer legs. -/
structure Meta2 where
  ka_name : String
  route_name : String
deriving DecidableEq, Repr, Inhabited

/-- `LegA` of `buildTransferPairs`: an inbound via → hub leg. -/
structure LegA where
  trainId : String
  departVia : String
  arriveTA : String
  departViaMin : ℚ
  arriveTAMin : ℚ
  meta : Option Meta2
deriving DecidableEq, Repr, Inhabited

/-- `LegB` of `buildTransferPairs`: an outbound hub → destination leg. -/
structure LegB where
  trainId : String
  departTA : String
  arriveDest : String
  departTAMin : ℚ
  arriveDestMin : Option ℚ
  meta : Option Meta2
deriving DecidableEq, Repr, Inhabited

/-- The per-train inbound-leg extraction of `buildTransferPairs`. -/
def mkLegA (trains : String → Option TrainMeta) (via : String)
    (tid : String) (grp : List StopRow) : Option LegA :=
  let arr := sortStops grp
  match arr.findIdx? (isStation via) with
  | none => none
  | some idxVia =>
    match arr.findIdx? (fun r => strLower r.station_name == strLower "tanah abang") with
    | none => none
    | some idxTA =>
      if idxVia < idxTA then
        let departVia := (arr.getD idxVia default).time_est
        let arriveTA := (arr.getD idxTA default).time_est
        match (jsNumber (arr.getD idxVia default).time_est_min).orOpt (hmsToMin departVia),
              (jsNumber (arr.getD idxTA default).time_est_min).orOpt (hmsToMin arriveTA) with
        | some dvm, some atm =>
            if departVia ≠ "" ∧ arriveTA ≠ "" then
              some
                { trainId := tid, departVia := departVia, arriveTA := arriveTA
                  departViaMin := dvm, arriveTAMin := atm
                  meta := (trains tid).map (fun m => ⟨m.ka_name, m.route_name⟩) }
            else none
        | _, _ => none
      else none

/-- The per-train outbound-leg extraction of `buildTransferPairs`. -/
def mkLegB (trains : String → Option TrainMeta) (dest : String)
    (tid : String) (grp : List StopRow) : Option LegB :=
  let arr := sortStops grp
  match arr.findIdx? (fun r => strLower r.station_name == strLower "tanah abang") with
  | none => none
  | some idxTA =>
    match arr.findIdx? (isStation dest) with
    | none => none
    | some idxDest =>
      if idxTA < idxDest then
        let departTA := (arr.getD idxTA default).time_est
        let arriveDest := (arr.getD idxDest default).time_est
        match (jsNumber (arr.getD idxTA default).time_est_min).orOpt (hmsToMin departTA) with
        | some dtm =>
            if departTA ≠ "" then
              some
                { trainId := tid, departTA := departTA, arriveDest := arriveDest
                  departTAMin := dtm
                  arriveDestMin := (jsNumber (arr.getD idxDest default).time_est_min).orOpt (hmsToMin arriveDest)
                  meta := (trains tid).map (fun m => ⟨m.ka_name, m.route_name⟩) }
            else none
        | none => none
      else none

/-- All inbound legs (loop over the pre-hub trains). -/
def mkLegAs (trains : String → Option TrainMeta) (via : String)
    (stopsPre : List StopRow) : List LegA :=
  (groupByKey StopRow.train_id stopsPre).filterMap (fun p => mkLegA trains via p.1 p.2)

/-- All outbound legs (loop over the post-hub trains). -/
def mkLegBs (trains : String → Option TrainMeta) (dest : String)
    (stopsPost : List StopRow) : List LegB :=
  (groupByKey StopRow.train_id stopsPost).filterMap (fun p => mkLegB trains dest p.1 p.2)

/-- `legBs.sort((a, b) => a.departTAMin - b.departTAMin)`. -/
def sortLegBs (l : List LegB) : List LegB :=
  l.mergeSort (fun a b => decide (a.departTAMin ≤ b.departTAMin))

/-- `waitDiffMin` of `buildTransferPairs`: circular wait time. -/
def waitDiffMin (arrive depart : ℚ) : ℚ :=
  let d := depart - arrive
  if d < 0 then d + 24 * 60 else d

/-- The binary-search loop of `buildTransferPairs`
(`while (lo < hi) { mid = (lo+hi)>>1; ... }`). -/
def bsLoop (bs : List LegB) (target : ℚ) (lo hi : ℕ) : ℕ :=
  if h : lo < hi then
    let mid := (lo + hi) / 2
    if (bs.getD mid default).departTAMin < target then bsLoop bs target (mid + 1) hi
    else bsLoop bs target lo mid
  else lo
termination_by hi - lo
decreasing_by
  · omega
  · omega

/-- First index whose departure is not below the arrival minute
(`lo` after the binary search). -/
def searchLo (bs : List LegB) (target : ℚ) : ℕ :=
  bsLoop bs target 0 bs.length

/-- `addCand` pushes a candidate unless already present; elements of
`legBs` are distinct object references in the source, so the reference
test of `includes` is index equality. -/
def pushIdx (l : List ℕ) (i : ℕ) : List ℕ :=
  if i ∈ l then l else l ++ [i]

/-- The candidate indices `{lo, lo+1, 0}` of the source, keeping only
valid indices, first occurrence first. -/
def candIdxs (len lo : ℕ) : List ℕ :=
  (([lo, lo + 1, 0]).filter (fun i => decide (i < len))).foldl pushIdx []

/-- The candidate outbound legs examined for one inbound leg. -/
def candsOf (bs : List LegB) (arrive : ℚ) : List LegB :=
  (candIdxs bs.length (searchLo bs arrive)).map (fun i => bs.getD i default)

/-- Does a wait satisfy the optional max-wait bound?
(the negation of `maxWaitMin != null && wait > maxWaitMin`). -/
def okWait (mw : Option ℚ) (wait : ℚ) : Prop :=
  ∀ m, mw = some m → wait ≤ m

instance (mw : Option ℚ) (wait : ℚ) : Decidable (okWait mw wait) := by
  unfold okWait
  cases mw with
  | none => exact isTrue (by simp)
  | some m => exact decidable_of_iff (wait ≤ m) (by simp)

/-- One step of the best-candidate selection loop
(`if (wait > maxWait) continue; if (!best || wait < best.wait) best = {b, wait}`). -/
def stepBest (mw : Option ℚ) (arrive : ℚ) (best : Option (LegB × ℚ)) (b : LegB) :
    Option (LegB × ℚ) :=
  let wait := waitDiffMin arrive b.departTAMin
  if ¬ okWait mw wait then best
  else
    match best with
    | none => some (b, wait)
    | some (b0, w0) => if wait < w0 then some (b, wait) else some (b0, w0)

/-- The best-candidate selection loop of `buildTransferPairs`. -/
def pickBest (mw : Option ℚ) (arrive : ℚ) (cands : List LegB) : Option (LegB × ℚ) :=
  cands.foldl (stepBest mw arrive) none

/-- `PairResult` of `through.ts`. -/
structure PairResult where
  from_train_id : String
  to_train_id : String
  depart_via_time : String
  arrive_ta_time : String
  depart_ta_time : String
  arrive_dest_time : String
  wait_min : ℚ
  meta_from : Option Meta2
  meta_to : Option Meta2
deriving DecidableEq, Repr, Inhabited

/-- The per-inbound-leg body of the matching loop: binary search, the
three candidates, best selection, and pair construction. -/
def processLegA (bs : List LegB) (mw : Option ℚ) (a : LegA) : Option PairResult :=
  match pickBest mw a.arriveTAMin (candsOf bs a.arriveTAMin) with
  | none => none
  | some (b, wait) =>
      some
        { from_train_id := a.trainId, to_train_id := b.trainId
          depart_via_time := a.departVia, arrive_ta_time := a.arriveTA
          depart_ta_time := b.departTA, arrive_dest_time := b.arriveDest
          wait_min := wait, meta_from := a.meta, meta_to := b.meta }

/-- Comparator of the final sort of `buildTransferPairs`
(`x.wait_min - y.wait_min || localeCompare(depart_via_time)`). -/
def pairLe (x y : PairResult) : Bool :=
  if x.wait_min = y.wait_min then decide (x.depart_via_time ≤ y.depart_via_time)
  else decide (x.wait_min ≤ y.wait_min)

/-- `buildTransferPairs` of `through.ts`. -/
def buildTransferPairs (stopsPre stopsPost : List StopRow)
    (trains : String → Option TrainMeta) (via dest : String)
    (mw : Option ℚ) : List PairResult :=
  ((mkLegAs trains via stopsPre).filterMap
      (processLegA (sortLegBs (mkLegBs trains dest stopsPost)) mw)).mergeSort pairLe

namespace ThroughCommand

/-- `ThroughCommand.findThrough` per-train body: identical to the
standalone version except that the hub literal is written `"tanah
abang"` directly instead of `"tanah abang".toLowerCase()`. -/
def findThroughTrain (trains : String → Option TrainMeta) (via dest : String)
    (tid : String) (grp : List StopRow) : Option ThroughResult :=
  let arr := sortStops grp
  match arr.findIdx? (isStation via) with
  | none => none
  | some viaIdx =>
    match arr.findIdx? (fun r => strLower r.station_name == "tanah abang") with
    | none => none
    | some taIdx =>
      if viaIdx < taIdx then
        match arr.findIdx? (isStation dest) with
        | some destIdx =>
            if taIdx < destIdx then
              some
                { train_id := tid
                  ka_name := (trains tid).map TrainMeta.ka_name
                  route_name := (trains tid).map TrainMeta.route_name
                  depart_via_time := (arr.getD viaIdx default).time_est
                  via_index := (jsNumber (arr.getD viaIdx default).stop_index).orQ (viaIdx : ℚ)
                  continues_to_dest := true }
            else none
        | none => none
      else none

/-- `ThroughCommand.findThrough` of the command module. -/
def findThrough (stops : List StopRow) (trains : String → Option TrainMeta)
    (via dest : String) : List ThroughResult :=
  ((groupByKey StopRow.train_id stops).filterMap
    (fun p => findThroughTrain trains via dest p.1 p.2)).mergeSort resultLe

/-- `ThroughCommand.buildTransferPairs` inbound-leg extraction (hub
literal written directly, non-null assertions on `hmsToMin` erased at
runtime). -/
def mkLegA (trains : String → Option TrainMeta) (via : String)
    (tid : String) (grp : List StopRow) : Option LegA :=
  let arr := sortStops grp
  match arr.findIdx? (isStation via) with
  | none => none
  | some idxVia =>
    match arr.findIdx? (fun r => strLower r.station_name == "tanah abang") with
    | none => none
    | some idxTA =>
      if idxVia < idxTA then
        let departVia := (arr.getD idxVia default).time_est
        let arriveTA := (arr.getD idxTA default).time_est
        match (jsNumber (arr.getD idxVia default).time_est_min).orOpt (hmsToMin departVia),
              (jsNumber (arr.getD idxTA default).time_est_min).orOpt (hmsToMin arriveTA) with
        | some dvm, some atm =>
            if departVia ≠ "" ∧ arriveTA ≠ "" then
              some
                { trainId := tid, departVia := departVia, arriveTA := arriveTA
                  departViaMin := dvm, arriveTAMin := atm
                  meta := (trains tid).map (fun m => ⟨m.ka_name, m.route_name⟩) }
            else none
        | _, _ => none
      else none

/-- `ThroughCommand.buildTransferPairs` outbound-leg extraction. -/
def mkLegB (trains : String → Option TrainMeta) (dest : String)
    (tid : String) (grp : List StopRow) : Option LegB :=
  let arr := sortStops grp
  match arr.findIdx? (fun r => strLower r.station_name == "tanah abang") with
  | none => none
  | some idxTA =>
    match arr.findIdx? (isStation dest) with
    | none => none
    | some idxDest =>
      if idxTA < idxDest then
        let departTA := (arr.getD idxTA default).time_est
        let arriveDest := (arr.getD idxDest default).time_est
        match (jsNumber (arr.getD idxTA default).time_est_min).orOpt (hmsToMin departTA) with
        | some dtm =>
            if departTA ≠ "" then
              some
                { trainId := tid, departTA := departTA, arriveDest := arriveDest
                  departTAMin := dtm
                  arriveDestMin := (jsNumber (arr.getD idxDest default).time_est_min).orOpt (hmsToMin arriveDest)
                  meta := (trains tid).map (fun m => ⟨m.ka_name, m.route_name⟩) }
            else none
        | none => none
      else none

/-- `ThroughCommand.buildTransferPairs` of the command module. -/
def buildTransferPairs (stopsPre stopsPost : List StopRow)
    (trains : String → Option TrainMeta) (via dest : String)
    (mw : Option ℚ) : List PairResult :=
  (((groupByKey StopRow.train_id stopsPre).filterMap
      (fun p => mkLegA trains via p.1 p.2)).filterMap
    (processLegA
      (sortLegBs ((groupByKey StopRow.train_id stopsPost).filterMap
        (fun p => mkLegB trains dest p.1 p.2))) mw)).mergeSort pairLe

end ThroughCommand

/-! ## `analyze.ts` -/

/-- A row of `legs.csv`, with the columns `loadLegs` reads. -/
structure LegRow where
  train_id : String
  from_index : String
  from_station : String
  to_index : String
  to_station : String
  leg_minutes : String
  ka_name : String
  route_name : String
  color : String
deriving DecidableEq, Repr, Inhabited

/-- `LegOut` of `analyze.ts`: a normalized leg record. -/
structure LegOut where
  train_id : String
  seq : ℚ
  from_station : String
  to_station : String
  leg_minutes : Option ℚ
  ka_name : String
  route_name : String
  color : String
deriving DecidableEq, Repr, Inhabited

/-- `Number(v.toFixed(2))`: round to two decimals, ties away from the
smaller value (the ECMAScript `toFixed` tie rule picks the larger
scaled integer). -/
def roundTo2 (q : ℚ) : ℚ :=
  ((round (q * 100) : ℤ) : ℚ) / 100

/-- The legs the inner loop of `deriveLegsFromStops` derives from one
train's sorted stop list: one leg per adjacent pair. -/
def legsOfTrain (tid : String) (arr : List StopRow) : List LegOut :=
  (List.range (arr.length - 1)).map (fun i =>
    let a := arr.getD i default
    let b := arr.getD (i + 1) default
    let d : Option ℚ :=
      match toNum a.time_est_min, toNum b.time_est_min with
      | some x, some y => some (if y - x < 0 then y - x + 24 * 60 else y - x)
      | _, _ => none
    { train_id := tid, seq := (i : ℚ) + 1
      from_station := a.station_name, to_station := b.station_name
      leg_minutes := d
      ka_name := a.ka_name, route_name := a.route_name, color := a.color })

/-- `deriveLegsFromStops` of `analyze.ts`: group stop rows by train,
sort each group by stop index, emit one leg per adjacent stop pair. -/
def deriveLegsFromStops (rows : List StopRow) : List LegOut :=
  (groupByKey StopRow.train_id rows).flatMap (fun p => legsOfTrain p.1 (sortStops p.2))

/-- The row mapping of `loadLegs` when `legs.csv` is present
(`seq: Number(r["from_index"]) || idx + 1`). -/
def legRowToOut (idx : ℕ) (r : LegRow) : LegOut :=
  { train_id := r.train_id
    seq := (jsNumber r.from_index).orQ ((idx : ℚ) + 1)
    from_station := r.from_station, to_station := r.to_station
    leg_minutes := toNum r.leg_minutes
    ka_name := r.ka_name, route_name := r.route_name, color := r.color }

/-- `rows.map((r, idx) => ...)`: map with the 0-based row index. -/
def mapWithIdx (f : ℕ → α → β) : ℕ → List α → List β
  | _, [] => []
  | i, a :: as => f i a :: mapWithIdx f (i + 1) as

/-- `loadLegs` of `analyze.ts`: the datasets are passed as `none` when
the corresponding file does not exist; the thrown `Error` is the
`Except.error` case. -/
def loadLegs (legRows : Option (List LegRow)) (stopRows : Option (List StopRow)) :
    Except String (List LegOut) :=
  match legRows with
  | some rows => .ok (mapWithIdx legRowToOut 0 rows)
  | none =>
    match stopRows with
    | some rows => .ok (deriveLegsFromStops rows)
    | none => .error "legs.csv atau stops.csv tidak ditemukan"

/-- `groupLegsByTrain` of `analyze.ts` (groups in insertion order, each
sorted by `seq` ascending, stably). -/
def groupLegsByTrain (legs : List LegOut) : List (String × List LegOut) :=
  (groupByKey LegOut.train_id legs).map
    (fun p => (p.1, p.2.mergeSort (fun a b => decide (a.seq ≤ b.seq))))

/-- `Stats` of `analyze.ts`. -/
structure Stats where
  count : ℕ
  min : Option ℚ
  max : Option ℚ
  sum : ℚ
deriving DecidableEq, Repr, Inhabited

/-- `pushStat` of `analyze.ts`: fold one (nullable) duration into the
running statistics. -/
def pushStat (st : Stats) (v : Option ℚ) : Stats :=
  match v with
  | none => st
  | some x =>
      { count := st.count + 1
        sum := st.sum + x
        min := some (match st.min with | none => x | some m => Min.min m x)
        max := some (match st.max with | none => x | some m => Max.max m x) }

/-- Segment key of the single-dataset aggregation. -/
def segKey (l : LegOut) : String := l.from_station ++ "__" ++ l.to_station

/-- The statistics accumulated for one segment key by the aggregation
loop (fold of `pushStat` over the key's legs, in order). -/
def segStatsFor (legs : List LegOut) (k : String) : Stats :=
  ((legs.filter (fun l => segKey l == k)).map LegOut.leg_minutes).foldl pushStat
    { count := 0, min := none, max := none, sum := 0 }

/-- A row of `segment_stats.csv`. -/
structure SegRow where
  from_station : String
  to_station : String
  count : ℕ
  min : Option ℚ
  max : Option ℚ
  avg : Option ℚ
deriving DecidableEq, Repr, Inhabited

/-- The output row for one segment key (`keyInfo` holds the stations of
the first leg with the key; `avg` is null for empty counts, otherwise
the mean rounded to two decimals). -/
def mkSegRow (legs : List LegOut) (k : String) : SegRow :=
  let st := segStatsFor legs k
  let info := (legs.find? (fun l => segKey l == k)).getD default
  { from_station := info.from_station, to_station := info.to_station
    count := st.count, min := st.min, max := st.max
    avg := if 0 < st.count then some (roundTo2 (st.sum / (st.count : ℚ))) else none }

/-- Comparator of the `segRows` sort: descending by `avg ?? 0`. -/
def segRowLe (a b : SegRow) : Bool :=
  decide (b.avg.getD 0 ≤ a.avg.getD 0)

/-- `segRows` of `analyze.ts` single-dataset mode: one row per segment
key, sorted descending by mean (nulls as 0). -/
def segRows (legs : List LegOut) : List SegRow :=
  ((keyList segKey legs).map (mkSegRow legs)).mergeSort segRowLe

/-- Segment label used in audit and compare modes. -/
def arrowKey (l : LegOut) : String := l.from_station ++ "→" ++ l.to_station

/-- The per-segment value lists of the audit (`segStats`): keys in
first-appearance order over the non-null legs, values in order. -/
def segValues (legs : List LegOut) : List (String × List ℚ) :=
  (groupByKey Prod.fst
    (legs.filterMap (fun l => l.leg_minutes.map (fun v => (arrowKey l, v))))).map
    (fun p => (p.1, p.2.map Prod.snd))

/-- Population mean of a sample list (`arr.reduce(..)/arr.length`). -/
def listMean (vs : List ℚ) : ℚ := vs.sum / (vs.length : ℚ)

/-- Population variance of a sample list (the square of the `std` the
source computes with `Math.sqrt`). -/
def listVar (vs : List ℚ) : ℚ :=
  ((vs.map (fun b => (b - listMean vs) * (b - listMean vs))).sum) / (vs.length : ℚ)

/-- An `outliers` entry of the audit. -/
structure Outlier where
  segment : String
  value : ℚ
deriving DecidableEq, Repr, Inhabited

/-- The outliers flagged in one segment. The source tests
`std === 0` and `Math.abs((v - mean) / std) >= 3` with
`std = Math.sqrt(variance)`; since the variance is non-negative these
are the conditions `variance ≠ 0` and `9·variance ≤ (v - mean)²` used
here (the equivalence with the z-score form is proved below), which
keeps the definition executable. -/
def segOutliers (k : String) (vs : List ℚ) : List Outlier :=
  if vs.length < 5 then []
  else if listVar vs = 0 then []
  else
    vs.filterMap (fun v =>
      if 9 * listVar vs ≤ (v - listMean vs) * (v - listMean vs) then
        some { segment := k, value := roundTo2 v }
      else none)

/-- The audit outlier list (loop over `segStats`). -/
def auditOutliers (legs : List LegOut) : List Outlier :=
  (segValues legs).flatMap (fun p => segOutliers p.1 p.2)

/-- The z-score condition as written in the source, over the reals:
`std ≠ 0` (after `Math.sqrt`) and `|value − mean| / std ≥ 3`. -/
def zFlagged (vs : List ℚ) (v : ℚ) : Prop :=
  Real.sqrt ((listVar vs : ℚ) : ℝ) ≠ 0 ∧
    3 ≤ |((v : ℚ) : ℝ) - ((listMean vs : ℚ) : ℝ)| / Real.sqrt ((listVar vs : ℚ) : ℝ)

/-! ### `buildCompareSeries` -/

/-- One output triple of `buildCompareSeries`. -/
structure SeriesPerDest where
  dest : String
  labels : List String
  avgA : List (Option ℚ)
  avgB : List (Option ℚ)
deriving DecidableEq, Repr, Inhabited

/-- `taken`: accumulate legs from the start index until (inclusively)
a leg ends at the recorded destination. -/
def takeUntilDest (dest : String) : List LegOut → List LegOut
  | [] => []
  | l :: rest => if l.to_station == dest then [l] else l :: takeUntilDest dest rest

/-- The per-train body of `extractSegments`: locate the first leg out
of the start station, resolve the destination (metadata, else last
leg's target), and take the span. -/
def segFor (startStation : String) (trains : String → Option TrainMeta)
    (tid : String) (seq : List LegOut) : Option (String × List LegOut) :=
  match seq.findIdx? (fun l => l.from_station == startStation) with
  | none => none
  | some startIdx =>
      let metaDest : String := match trains tid with
        | some m => m.dest
        | none => ""
      let dest := if metaDest ≠ "" then metaDest
        else match seq.getLast? with
          | some l => l.to_station
          | none => ""
      if dest = "" then none
      else
        let taken := takeUntilDest dest (seq.drop startIdx)
        if taken = [] then none else some (dest, taken)

/-- `extractSegments`: accumulate the spans per destination, keys in
first-appearance order. -/
def extractSegments (startStation : String) (trains : String → Option TrainMeta)
    (byTrain : List (String × List LegOut)) : List (String × List LegOut) :=
  let pairs := byTrain.filterMap (fun p => segFor startStation trains p.1 p.2)
  (keyList Prod.fst pairs).map
    (fun d => (d, (pairs.filter (fun q => q.1 == d)).flatMap Prod.snd))

/-- `labelsFrom`: labels in order of appearance, collapsing consecutive
duplicates. -/
def labelsFrom (list : List LegOut) : List String :=
  list.foldl (fun labels l =>
    let lab := arrowKey l
    if labels.getLast? = some lab then labels else labels ++ [lab]) []

/-- The canonical label order: dataset-A labels first, then new
dataset-B labels, deduplicated by first occurrence. -/
def labelOrderFor (la lb : List LegOut) : List String :=
  ((labelsFrom la) ++ (labelsFrom lb)).foldl insertKey []

/-- `avgByLabel`: per-label mean over the non-null durations, rounded
to two decimals, null for labels without samples. -/
def avgByLabel (labelOrder : List String) (list : List LegOut) : List (Option ℚ) :=
  labelOrder.map (fun lab =>
    let nn := (list.filter (fun l => arrowKey l == lab)).filterMap LegOut.leg_minutes
    if 0 < nn.length then some (roundTo2 (nn.sum / (nn.length : ℚ))) else none)

/-- `segsX.get(dest)`, with a missing destination behaving as the empty
list (in the source, `labelsFrom(undefined)` is `[]` and
`avgByLabel(undefined)` yields all-null columns). -/
def lookupSeg (s : List (String × List LegOut)) (d : String) : List LegOut :=
  match s.find? (fun p => p.1 == d) with
  | some p => p.2
  | none => []

/-- The destination set `new Set([...A.keys(), ...B.keys()])`, in
insertion order. -/
def allDests (sA sB : List (String × List LegOut)) : List String :=
  ((sA.map Prod.fst) ++ (sB.map Prod.fst)).foldl insertKey []

/-- `buildCompareSeries` of `analyze.ts`. -/
def buildCompareSeries (startStation : String) (legsA legsB : List LegOut)
    (trainsA trainsB : String → Option TrainMeta) : List SeriesPerDest :=
  let sA := extractSegments startStation trainsA (groupLegsByTrain legsA)
  let sB := extractSegments startStation trainsB (groupLegsByTrain legsB)
  (allDests sA sB).map (fun d =>
    let la := lookupSeg sA d
    let lb := lookupSeg sB d
    let labs := labelOrderFor la lb
    { dest := d, labels := labs, avgA := avgByLabel labs la, avgB := avgByLabel labs lb })

/-! ## Concrete data used by witnesses and counterexamples -/

/-- Shorthand stop-row constructor for concrete examples. -/
def mkStop (tid idx name t tmin : String) : StopRow :=
  { train_id := tid, stop_index := idx, station_name := name, time_est := t
    time_est_min := tmin, ka_name := "", route_name := "", color := "" }

/-- The stop list of spec scenario 6 (one through train). -/
def wStops6 : List StopRow :=
  [mkStop "101" "0" "Palmerah" "07:00:00" "420",
   mkStop "101" "1" "Tanah Abang" "07:20:00" "440",
   mkStop "101" "2" "Sudirman" "07:40:00" "460"]

/-- A legs-dataset row with a non-numeric sequence index and an
unparsable duration. -/
def wBadLegRow : LegRow :=
  { train_id := "T1", from_index := "x", from_station := "A", to_index := "1"
    to_station := "B", leg_minutes := "abc", ka_name := "", route_name := "", color := "" }

/-- Pre-hub stops for the transfer witnesses (arrival at the hub at
minute 440). -/
def wStopsPre : List StopRow :=
  [mkStop "A1" "0" "Palmerah" "07:00:00" "420",
   mkStop "A1" "1" "Tanah Abang" "07:20:00" "440"]

/-- Post-hub stops for the transfer witnesses (departures at minutes
430 and 465). -/
def wStopsPost : List StopRow :=
  [mkStop "B2" "0" "Tanah Abang" "07:45:00" "465",
   mkStop "B2" "1" "Rangkasbitung" "09:00:00" "540",
   mkStop "B1" "0" "Tanah Abang" "07:10:00" "430",
   mkStop "B1" "1" "Rangkasbitung" "08:30:00" "510"]

/-- An outbound leg departing the hub at minute 465 (scenario 7's
nearest feasible departure). -/
def wLegB465 : LegB :=
  { trainId := "B2", departTA := "07:45:00", arriveDest := "08:30:00"
    departTAMin := 465, arriveDestMin := some 510, meta := none }

/-- An outbound leg departing the hub at minute 430. -/
def wLegB430 : LegB :=
  { trainId := "B1", departTA := "07:10:00", arriveDest := "08:00:00"
    departTAMin := 430, arriveDestMin := some 480, meta := none }

/-- An inbound leg arriving at the hub at minute 440. -/
def wLegA440 : LegA :=
  { trainId := "A1", departVia := "07:00:00", arriveTA := "07:20:00"
    departViaMin := 420, arriveTAMin := 440, meta := none }

/-- Legs of one segment whose exact mean `31/3` rounds to `10.33`. -/
def wLegsThird : List LegOut :=
  [{ train_id := "T", seq := 1, from_station := "A", to_station := "B"
     leg_minutes := some 10, ka_name := "", route_name := "", color := "" },
   { train_id := "T", seq := 2, from_station := "A", to_station := "B"
     leg_minutes := some 10, ka_name := "", route_name := "", color := "" },
   { train_id := "T", seq := 3, from_station := "A", to_station := "B"
     leg_minutes := some 11, ka_name := "", route_name := "", color := "" }]

/-- Two stops of one train whose minute values wrap across midnight. -/
def wStopsWrap : List StopRow :=
  [mkStop "T" "0" "A" "23:50:00" "1430", mkStop "T" "1" "B" "00:10:00" "10"]

/-- The pair `buildTransferPairs` emits for `wStopsPre`/`wStopsPost`
under a 30-minute wait bound. -/
def wPair : PairResult :=
  { from_train_id := "A1", to_train_id := "B2", depart_via_time := "07:00:00"
    arrive_ta_time := "07:20:00", depart_ta_time := "07:45:00"
    arrive_dest_time := "09:00:00", wait_min := 25, meta_from := none, meta_to := none }

/-- A single leg with null duration (a segment with zero non-null
samples). -/
def wLegNull : List LegOut :=
  [{ train_id := "T", seq := 1, from_station := "E", to_station := "F"
     leg_minutes := none, ka_name := "", route_name := "", color := "" }]

end KRL

/-! ## Theorems -/

namespace KRL

/-- The hub literal is already lower case. -/
theorem strLower_hub : strLower "tanah abang" = "tanah abang" := rfl

theorem throughCommand_findThroughTrain_eq :
    ThroughCommand.findThroughTrain = findThroughTrain := by
  unfold ThroughCommand.findThroughTrain findThroughTrain
  simp only [strLower_hub]

theorem throughCommand_mkLegA_eq : ThroughCommand.mkLegA = mkLegA := by
  unfold ThroughCommand.mkLegA mkLegA
  simp only [strLower_hub]

theorem throughCommand_mkLegB_eq : ThroughCommand.mkLegB = mkLegB := by
  unfold ThroughCommand.mkLegB mkLegB
  simp only [strLower_hub]

/-- C9: the standalone `through.ts` entry point and the command module
compute identical results: for every input, `findThrough` and
`buildTransferPairs` of the two implementations return equal result
sequences (same elements, same order). -/
theorem C9_command_module_equivalence :
    (∀ stops trains via dest,
      ThroughCommand.findThrough stops trains via dest = findThrough stops trains via dest) ∧
    (∀ stopsPre stopsPost trains via dest mw,
      ThroughCommand.buildTransferPairs stopsPre stopsPost trains via dest mw =
        buildTransferPairs stopsPre stopsPost trains via dest mw) := by
  constructor
  · intro stops trains via dest
    unfold ThroughCommand.findThrough findThrough
    rw [throughCommand_findThroughTrain_eq]
  · intro stopsPre stopsPost trains via dest mw
    unfold ThroughCommand.buildTransferPairs buildTransferPairs mkLegAs mkLegBs
    rw [throughCommand_mkLegA_eq, throughCommand_mkLegB_eq]

/-- C10: the core analysis functions are deterministic: two invocations
of `findThrough`, `buildTransferPairs` and `buildCompareSeries` on the
same inputs yield identical result sequences (the embedding is a pure
function of exactly the listed inputs, with no hidden state). -/
theorem C10_determinism :
    (∀ stops trains via dest,
      findThrough stops trains via dest = findThrough stops trains via dest) ∧
    (∀ stopsPre stopsPost trains via dest mw,
      buildTransferPairs stopsPre stopsPost trains via dest mw =
        buildTransferPairs stopsPre stopsPost trains via dest mw) ∧
    (∀ start legsA legsB trainsA trainsB,
      buildCompareSeries start legsA legsB trainsA trainsB =
        buildCompareSeries start legsA legsB trainsA trainsB) :=
  ⟨fun _ _ _ _ => rfl, fun _ _ _ _ _ _ => rfl, fun _ _ _ _ _ => rfl⟩

/-- C8 counterexample: a legs row whose `from_index` is the non-numeric
string `"x"` gets sequence index `1` (its 1-based row position), not
`0`; the unparsable `leg_minutes` does parse to null. -/
theorem C8_counterexample_seq_not_zero :
    loadLegs (some [wBadLegRow]) none =
      .ok [{ train_id := "T1", seq := 1, from_station := "A", to_station := "B"
             leg_minutes := none, ka_name := "", route_name := "", color := "" }] ∧
    (1 : ℚ) ≠ 0 := by
  refine ⟨?_, by decide⟩
  show Except.ok _ = Except.ok _
  exact congrArg Except.ok (by with_unfolding_all decide)

/-- C8 (amended): `loadLegs` fails if and only if neither dataset is
present; when the legs dataset is present every row maps totally, an
unparsable `leg_minutes` parses to null, and a non-numeric sequence
index degrades to the row's 1-based position (not to 0). -/
theorem C8_loadLegs_error_iff_missing :
    ∀ (legRows : Option (List LegRow)) (stopRows : Option (List StopRow)),
      ((∃ e, loadLegs legRows stopRows = .error e) ↔ legRows = none ∧ stopRows = none) ∧
      (∀ rows, legRows = some rows →
        loadLegs legRows stopRows = .ok (mapWithIdx legRowToOut 0 rows)) ∧
      (∀ (idx : ℕ) (r : LegRow), jsNumber r.from_index = .nan →
        (legRowToOut idx r).seq = (idx : ℚ) + 1) ∧
      (∀ (idx : ℕ) (r : LegRow), jsNumber r.leg_minutes = .nan →
        (legRowToOut idx r).leg_minutes = none) := by
  intro legRows stopRows
  refine ⟨?_, ?_, ?_, ?_⟩
  · cases legRows with
    | some rows => simp [loadLegs]
    | none =>
      cases stopRows with
      | some rows => simp [loadLegs]
      | none => simp [loadLegs]
  · intro rows h
    subst h
    rfl
  · intro idx r h
    simp [legRowToOut, JsNum.orQ, h]
  · intro idx r h
    simp [legRowToOut, toNum, h]

/-! ### Grouping lemmas -/

theorem mem_insertKey {ks : List String} {k k' : String} :
    k ∈ insertKey ks k' ↔ k ∈ ks ∨ k = k' := by
  unfold insertKey
  split
  · rename_i h
    constructor
    · exact Or.inl
    · rintro (hk | rfl)
      · exact hk
      · exact h
  · simp [List.mem_append]

theorem insertKey_nodup {ks : List String} (h : ks.Nodup) (k : String) :
    (insertKey ks k).Nodup := by
  unfold insertKey
  split
  · exact h
  · rename_i hn
    simpa [List.nodup_append] using ⟨h, fun hk => hn hk⟩

theorem mem_foldl_insertKey (key : α → String) (rows : List α) :
    ∀ (acc : List String) (k : String),
      k ∈ rows.foldl (fun ks r => insertKey ks (key r)) acc ↔
        k ∈ acc ∨ ∃ r ∈ rows, key r = k := by
  induction rows with
  | nil => intro acc k; simp
  | cons r rs ih =>
      intro acc k
      rw [List.foldl_cons, ih, mem_insertKey]
      constructor
      · rintro ((hk | rfl) | ⟨r', hr', rfl⟩)
        · exact Or.inl hk
        · exact Or.inr ⟨r, by simp⟩
        · exact Or.inr ⟨r', by simp [hr']⟩
      · rintro (hk | ⟨r', hr', rfl⟩)
        · exact Or.inl (Or.inl hk)
        · rcases List.mem_cons.mp hr' with rfl | hr'
          · exact Or.inl (Or.inr rfl)
          · exact Or.inr ⟨r', hr', rfl⟩

theorem mem_keyList {key : α → String} {rows : List α} {k : String} :
    k ∈ keyList key rows ↔ ∃ r ∈ rows, key r = k := by
  unfold keyList
  rw [mem_foldl_insertKey]
  simp

theorem nodup_foldl_insertKey (key : α → String) (rows : List α) :
    ∀ acc : List String, acc.Nodup →
      (rows.foldl (fun ks r => insertKey ks (key r)) acc).Nodup := by
  induction rows with
  | nil => intro acc h; exact h
  | cons r rs ih =>
      intro acc h
      exact ih _ (insertKey_nodup h _)

theorem keyList_nodup (key : α → String) (rows : List α) :
    (keyList key rows).Nodup :=
  nodup_foldl_insertKey key rows [] List.nodup_nil

theorem mem_groupByKey {key : α → String} {rows : List α} {k : String} {g : List α} :
    (k, g) ∈ groupByKey key rows ↔
      k ∈ keyList key rows ∧ g = rows.filter (fun r => key r == k) := by
  unfold groupByKey
  rw [List.mem_map]
  constructor
  · rintro ⟨k', hk', h⟩
    cases h
    exact ⟨hk', rfl⟩
  · rintro ⟨hk, rfl⟩
    exact ⟨k, hk, rfl⟩

/-! ### `findThroughTrain` characterization -/

theorem findThroughTrain_eq_some_iff {trains : String → Option TrainMeta}
    {via dest tid : String} {grp : List StopRow} {r : ThroughResult} :
    findThroughTrain trains via dest tid grp = some r ↔
      ∃ vi ti di,
        (sortStops grp).findIdx? (isStation via) = some vi ∧
        (sortStops grp).findIdx?
          (fun s => strLower s.station_name == strLower "tanah abang") = some ti ∧
        (sortStops grp).findIdx? (isStation dest) = some di ∧
        vi < ti ∧ ti < di ∧
        r = { train_id := tid
              ka_name := (trains tid).map TrainMeta.ka_name
              route_name := (trains tid).map TrainMeta.route_name
              depart_via_time := ((sortStops grp).getD vi default).time_est
              via_index := (jsNumber ((sortStops grp).getD vi default).stop_index).orQ (vi : ℚ)
              continues_to_dest := true } := by
  unfold findThroughTrain
  cases h1 : (sortStops grp).findIdx? (isStation via) with
  | none => simp [h1]
  | some vi =>
    cases h2 : (sortStops grp).findIdx?
        (fun s => strLower s.station_name == strLower "tanah abang") with
    | none => simp [h1, h2]
    | some ti =>
      by_cases hvt : vi < ti
      · cases h3 : (sortStops grp).findIdx? (isStation dest) with
        | none => simp [h1, h2, h3, hvt]
        | some di =>
          by_cases htd : ti < di
          · simp only [h1, h2, h3, if_pos hvt, if_pos htd, Option.some_inj]
            constructor
            · rintro rfl
              exact ⟨vi, ti, di, rfl, rfl, rfl, hvt, htd, rfl⟩
            · rintro ⟨vi', ti', di', rfl, ht, hd, _, _, rfl⟩
              rfl
          · simp [h1, h2, h3, hvt, htd]
      · simp [h1, h2, hvt]

theorem findThroughTrain_train_id {trains : String → Option TrainMeta}
    {via dest tid : String} {grp : List StopRow} {r : ThroughResult}
    (h : findThroughTrain trains via dest tid grp = some r) : r.train_id = tid := by
  rcases findThroughTrain_eq_some_iff.mp h with ⟨_, _, _, _, _, _, _, _, rfl⟩
  rfl

theorem findThrough_trainIds_sublist (trains : String → Option TrainMeta)
    (via dest : String) (L : List (String × List StopRow)) :
    ((L.filterMap (fun p => findThroughTrain trains via dest p.1 p.2)).map
      ThroughResult.train_id).Sublist (L.map Prod.fst) := by
  induction L with
  | nil => simp
  | cons p ps ih =>
      rw [List.filterMap_cons]
      cases h : findThroughTrain trains via dest p.1 p.2 with
      | none => exact ih.cons p.1
      | some r =>
          rw [List.map_cons, List.map_cons, findThroughTrain_train_id h]
          exact ih.cons₂ p.1

theorem keyList_map_fst_groupByKey (key : α → String) (rows : List α) :
    (groupByKey key rows).map Prod.fst = keyList key rows := by
  unfold groupByKey
  rw [List.map_map]
  exact List.map_id (keyList key rows)

/-- Membership in `findThrough`: a result is exactly a successful
per-train outcome for some grouped train. -/
theorem mem_findThrough_iff {stops : List StopRow} {trains : String → Option TrainMeta}
    {via dest : String} {r : ThroughResult} :
    r ∈ findThrough stops trains via dest ↔
      ∃ tid grp, (tid, grp) ∈ groupByKey StopRow.train_id stops ∧
        findThroughTrain trains via dest tid grp = some r := by
  unfold findThrough
  rw [List.mem_mergeSort, List.mem_filterMap]
  constructor
  · rintro ⟨⟨tid, grp⟩, hmem, h⟩
    exact ⟨tid, grp, hmem, h⟩
  · rintro ⟨tid, grp, hmem, h⟩
    exact ⟨(tid, grp), hmem, h⟩

/-- C5 counterexample: in spec scenario 6 the qualifying train's hub
stop is "Tanah Abang" at sorted position 1 with departure time
"07:20:00", but the produced `ThroughResult` records the via stop's
time "07:00:00" and index 0 instead. -/
theorem C5_counterexample_via_not_hub :
    findThrough wStops6 (fun _ => none) "Palmerah" "Sudirman" =
      [{ train_id := "101", ka_name := none, route_name := none
         depart_via_time := "07:00:00", via_index := 0, continues_to_dest := true }] ∧
    (wStops6.getD 1 default).station_name = "Tanah Abang" ∧
    (wStops6.getD 1 default).time_est = "07:20:00" ∧
    "07:00:00" ≠ "07:20:00" ∧
    (0 : ℚ) ≠ 1 := by
  refine ⟨by with_unfolding_all decide, by decide, by decide, by decide, by decide⟩

/-- C5 (amended): every `ThroughResult` records the departure time of
the qualifying vehicle's stop at the VIA station and that stop's
sequence index (`Number(stop_index) || viaIdx`), and there is one
result per qualifying vehicle (train ids are pairwise distinct). -/
theorem C5_result_records_via_stop :
    ∀ stops (trains : String → Option TrainMeta) via dest,
      ((findThrough stops trains via dest).map ThroughResult.train_id).Nodup ∧
      ∀ r ∈ findThrough stops trains via dest,
        ∃ vi,
          (sortStops (stops.filter (fun s => s.train_id == r.train_id))).findIdx?
            (isStation via) = some vi ∧
          r.depart_via_time =
            ((sortStops (stops.filter (fun s => s.train_id == r.train_id))).getD vi
              default).time_est ∧
          r.via_index =
            (jsNumber ((sortStops (stops.filter (fun s => s.train_id == r.train_id))).getD vi
              default).stop_index).orQ (vi : ℚ) := by
  intro stops trains via dest
  constructor
  · have hperm :
        (findThrough stops trains via dest).Perm
          ((groupByKey StopRow.train_id stops).filterMap
            (fun p => findThroughTrain trains via dest p.1 p.2)) :=
      List.mergeSort_perm _ _
    rw [(hperm.map ThroughResult.train_id).nodup_iff]
    refine (findThrough_trainIds_sublist trains via dest _).nodup ?_
    rw [keyList_map_fst_groupByKey]
    exact keyList_nodup _ _
  · intro r hr
    rcases mem_findThrough_iff.mp hr with ⟨tid, grp, hmem, h⟩
    rcases mem_groupByKey.mp hmem with ⟨_, rfl⟩
    rcases findThroughTrain_eq_some_iff.mp h with ⟨vi, ti, di, hv, _, _, _, _, rfl⟩
    exact ⟨vi, hv, rfl, rfl⟩

/-- C5 witness: the amended statement applied to scenario 6. -/
theorem C5_witness :
    ∃ vi,
      (sortStops (wStops6.filter (fun s => s.train_id ==
        ({ train_id := "101", ka_name := none, route_name := none
           depart_via_time := "07:00:00", via_index := 0,
           continues_to_dest := true } : ThroughResult).train_id))).findIdx?
        (isStation "Palmerah") = some vi ∧
      ({ train_id := "101", ka_name := none, route_name := none
         depart_via_time := "07:00:00", via_index := 0,
         continues_to_dest := true } : ThroughResult).depart_via_time =
        ((sortStops (wStops6.filter (fun s => s.train_id == "101"))).getD vi
          default).time_est ∧
      ({ train_id := "101", ka_name := none, route_name := none
         depart_via_time := "07:00:00", via_index := 0,
         continues_to_dest := true } : ThroughResult).via_index =
        (jsNumber ((sortStops (wStops6.filter (fun s => s.train_id == "101"))).getD vi
          default).stop_index).orQ (vi : ℚ) :=
  (C5_result_records_via_stop wStops6 (fun _ => none) "Palmerah" "Sudirman").2
    { train_id := "101", ka_name := none, route_name := none
      depart_via_time := "07:00:00", via_index := 0, continues_to_dest := true }
    (by with_unfolding_all decide)

/-- C4: `findThrough` returns a result for a vehicle if and only if, in
its stops sorted by sequence index, the via station occurs
(case-insensitive first occurrence), the hub station occurs at an index
strictly greater than the via index, and the destination occurs at an
index strictly greater than the hub index; vehicles violating any of
these contribute nothing. -/
theorem C4_through_iff_via_hub_dest_order :
    ∀ stops (trains : String → Option TrainMeta) via dest (t : String),
      (∃ r ∈ findThrough stops trains via dest, r.train_id = t) ↔
        ∃ vi ti di,
          (sortStops (stops.filter (fun s => s.train_id == t))).findIdx?
            (isStation via) = some vi ∧
          (sortStops (stops.filter (fun s => s.train_id == t))).findIdx?
            (fun s => strLower s.station_name == strLower "tanah abang") = some ti ∧
          (sortStops (stops.filter (fun s => s.train_id == t))).findIdx?
            (isStation dest) = some di ∧
          vi < ti ∧ ti < di := by
  intro stops trains via dest t
  constructor
  · rintro ⟨r, hr, rfl⟩
    rcases mem_findThrough_iff.mp hr with ⟨tid, grp, hmem, h⟩
    rcases mem_groupByKey.mp hmem with ⟨_, rfl⟩
    rcases findThroughTrain_eq_some_iff.mp h with ⟨vi, ti, di, hv, ht, hd, hvt, htd, rfl⟩
    exact ⟨vi, ti, di, hv, ht, hd, hvt, htd⟩
  · rintro ⟨vi, ti, di, hv, ht, hd, hvt, htd⟩
    have hvlen : vi < (sortStops (stops.filter (fun s => s.train_id == t))).length :=
      (List.findIdx?_eq_some_iff_findIdx_eq.mp hv).1
    have hne : (stops.filter (fun s => s.train_id == t)) ≠ [] := by
      intro hempty
      rw [hempty] at hvlen
      simp [sortStops] at hvlen
    have hkey : t ∈ keyList StopRow.train_id stops := by
      rcases List.exists_mem_of_ne_nil _ hne with ⟨s, hs⟩
      rcases List.mem_filter.mp hs with ⟨hsmem, hst⟩
      exact mem_keyList.mpr ⟨s, hsmem, by simpa using hst⟩
    have hmem : (t, stops.filter (fun s => s.train_id == t)) ∈
        groupByKey StopRow.train_id stops :=
      mem_groupByKey.mpr ⟨hkey, rfl⟩
    refine ⟨_, mem_findThrough_iff.mpr ⟨t, _, hmem,
      findThroughTrain_eq_some_iff.mpr ⟨vi, ti, di, hv, ht, hd, hvt, htd, rfl⟩⟩, rfl⟩

/-! ### C2: leg derivation -/

/-- The cross-midnight safeguard computes exactly the value modulo 1440
for integer minute values within one day. -/
theorem wrap_eq_emod (x y : ℤ) (hx0 : 0 ≤ x) (hx1 : x ≤ 1439) (hy0 : 0 ≤ y)
    (hy1 : y ≤ 1439) :
    (if (y : ℚ) - (x : ℚ) < 0 then (y : ℚ) - (x : ℚ) + 24 * 60 else (y : ℚ) - (x : ℚ)) =
      (((y - x) % 1440 : ℤ) : ℚ) := by
  have hcast : ((y : ℚ) - (x : ℚ) < 0) ↔ (y - x < 0) := by
    constructor
    · intro h
      by_contra hc
      push_neg at hc
      have : (0 : ℚ) ≤ (y : ℚ) - (x : ℚ) := by
        have := sub_nonneg.mpr (Int.cast_le.mpr (by omega : x ≤ y) : (x : ℚ) ≤ y)
        exact this
      exact absurd h (not_lt.mpr this)
    · intro h
      have hxy : (y : ℚ) < (x : ℚ) := Int.cast_lt.mpr (by omega)
      exact sub_neg.mpr hxy
  split_ifs with hneg
  · have hz : y - x < 0 := hcast.mp hneg
    have : y - x + 1440 = (y - x) % 1440 := by omega
    push_cast [← this]
    ring
  · have hz : ¬ (y - x < 0) := fun h => hneg (hcast.mpr h)
    have : y - x = (y - x) % 1440 := by omega
    push_cast [← this]
    ring

theorem legsOfTrain_length (tid : String) (arr : List StopRow) :
    (legsOfTrain tid arr).length = arr.length - 1 := by
  simp [legsOfTrain]

theorem legsOfTrain_getD (tid : String) (arr : List StopRow) (i : ℕ)
    (h : i + 1 < arr.length) :
    (legsOfTrain tid arr).getD i default =
      (let a := arr.getD i default
       let b := arr.getD (i + 1) default
       let d : Option ℚ :=
         match toNum a.time_est_min, toNum b.time_est_min with
         | some x, some y => some (if y - x < 0 then y - x + 24 * 60 else y - x)
         | _, _ => none
       { train_id := tid, seq := (i : ℚ) + 1
         from_station := a.station_name, to_station := b.station_name
         leg_minutes := d
         ka_name := a.ka_name, route_name := a.route_name, color := a.color }) := by
  have hi : i < (legsOfTrain tid arr).length := by
    rw [legsOfTrain_length]
    omega
  rw [List.getD_eq_getElem _ _ hi]
  unfold legsOfTrain
  rw [List.getElem_map, List.getElem_range]

/-- C2: for every adjacent stop pair of a vehicle (after grouping by
vehicle and sorting by sequence index), the derived leg's duration is
`(to_min − from_min) mod 1440 ∈ [0, 1439]` when both minute values are
integers in `[0, 1439]`, is null when either minute value is null, and
exactly one leg is emitted per adjacent pair. -/
theorem C2_derived_leg_duration :
    (∀ rows, deriveLegsFromStops rows =
      (groupByKey StopRow.train_id rows).flatMap (fun p => legsOfTrain p.1 (sortStops p.2))) ∧
    ∀ (arr : List StopRow) (tid : String),
      (legsOfTrain tid arr).length = arr.length - 1 ∧
      ∀ i, i + 1 < arr.length →
        (∀ (x y : ℤ),
          toNum (arr.getD i default).time_est_min = some (x : ℚ) →
          toNum (arr.getD (i + 1) default).time_est_min = some (y : ℚ) →
          0 ≤ x → x ≤ 1439 → 0 ≤ y → y ≤ 1439 →
          ((legsOfTrain tid arr).getD i default).leg_minutes =
              some (((y - x) % 1440 : ℤ) : ℚ) ∧
            0 ≤ (y - x) % 1440 ∧ (y - x) % 1440 ≤ 1439) ∧
        ((toNum (arr.getD i default).time_est_min = none ∨
          toNum (arr.getD (i + 1) default).time_est_min = none) →
          ((legsOfTrain tid arr).getD i default).leg_minutes = none) := by
  refine ⟨fun rows => rfl, ?_⟩
  intro arr tid
  refine ⟨legsOfTrain_length tid arr, ?_⟩
  intro i hi
  constructor
  · intro x y hx hy hx0 hx1 hy0 hy1
    rw [legsOfTrain_getD tid arr i hi]
    simp only [hx, hy]
    refine ⟨?_, by omega, by omega⟩
    rw [wrap_eq_emod x y hx0 hx1 hy0 hy1]
  · intro hnull
    rw [legsOfTrain_getD tid arr i hi]
    dsimp only
    rcases hnull with hn | hn
    · rw [hn]
    · rw [hn]
      cases toNum (arr.getD i default).time_est_min <;> rfl

/-- C2 witness: the cross-midnight pair of `wStopsWrap`
(arrival 1430, departure 10, duration 20 = (10 − 1430) mod 1440). -/
theorem C2_witness :
    toNum ((sortStops wStopsWrap).getD 0 default).time_est_min = some ((1430 : ℤ) : ℚ) ∧
    toNum ((sortStops wStopsWrap).getD 1 default).time_est_min = some ((10 : ℤ) : ℚ) ∧
    ((legsOfTrain "T" (sortStops wStopsWrap)).getD 0 default).leg_minutes =
        some ((((10 : ℤ) - 1430) % 1440 : ℤ) : ℚ) ∧
    0 ≤ ((10 : ℤ) - 1430) % 1440 ∧ ((10 : ℤ) - 1430) % 1440 ≤ 1439 :=
  ⟨by with_unfolding_all decide, by with_unfolding_all decide,
    (((C2_derived_leg_duration.2 (sortStops wStopsWrap) "T").2 0
        (by with_unfolding_all decide)).1 1430 10
      (by with_unfolding_all decide) (by with_unfolding_all decide)
      (by decide) (by decide) (by decide) (by decide)).1,
    (((C2_derived_leg_duration.2 (sortStops wStopsWrap) "T").2 0
        (by with_unfolding_all decide)).1 1430 10
      (by with_unfolding_all decide) (by with_unfolding_all decide)
      (by decide) (by decide) (by decide) (by decide)).2.1,
    (((C2_derived_leg_duration.2 (sortStops wStopsWrap) "T").2 0
        (by with_unfolding_all decide)).1 1430 10
      (by with_unfolding_all decide) (by with_unfolding_all decide)
      (by decide) (by decide) (by decide) (by decide)).2.2⟩

/-! ### C7: segment aggregation -/

theorem foldl_pushStat (vs : List (Option ℚ)) :
    ∀ st : Stats,
      (vs.foldl pushStat st).count = st.count + (vs.filterMap id).length ∧
      (vs.foldl pushStat st).sum = st.sum + (vs.filterMap id).sum ∧
      ((vs.foldl pushStat st).min = none ↔ st.min = none ∧ vs.filterMap id = []) ∧
      ((vs.foldl pushStat st).max = none ↔ st.max = none ∧ vs.filterMap id = []) := by
  induction vs with
  | nil => intro st; simp
  | cons v rest ih =>
      intro st
      cases v with
      | none =>
          rw [List.foldl_cons]
          show (rest.foldl pushStat (pushStat st none)).count = _ ∧ _
          rcases ih (pushStat st none) with ⟨h1, h2, h3, h4⟩
          refine ⟨?_, ?_, ?_, ?_⟩
          · simpa [pushStat] using h1
          · simpa [pushStat] using h2
          · simpa [pushStat] using h3
          · simpa [pushStat] using h4
      | some x =>
          rw [List.foldl_cons]
          rcases ih (pushStat st (some x)) with ⟨h1, h2, h3, h4⟩
          refine ⟨?_, ?_, ?_, ?_⟩
          · rw [h1]
            simp [pushStat]
            ring
          · rw [h2]
            simp [pushStat]
            ring
          · rw [h3]
            simp [pushStat]
          · rw [h4]
            simp [pushStat]

theorem segRowLe_trans (a b c : SegRow) :
    segRowLe a b = true → segRowLe b c = true → segRowLe a c = true := by
  unfold segRowLe
  intro h1 h2
  exact decide_eq_true (le_trans (of_decide_eq_true h2) (of_decide_eq_true h1))

theorem segRowLe_total (a b : SegRow) : (segRowLe a b || segRowLe b a) = true := by
  unfold segRowLe
  rcases le_total (b.avg.getD 0) (a.avg.getD 0) with h | h
  · simp [h]
  · simp [h]

/-- C7 counterexample: for the three durations `[10, 10, 11]` of one
segment, the emitted mean is the rounded `10.33 = 1033/100`, which is
not equal to `sum/count = 31/3`; so "mean equals sum/count" fails as
stated (the source rounds the mean to two decimals). -/
theorem C7_counterexample_mean_is_rounded :
    segRows wLegsThird =
      [{ from_station := "A", to_station := "B", count := 3
         min := some 10, max := some 11, avg := some (1033 / 100) }] ∧
    ((wLegsThird.filter (fun l => segKey l == "A__B")).filterMap LegOut.leg_minutes).sum /
        ((((wLegsThird.filter (fun l => segKey l == "A__B")).filterMap
          LegOut.leg_minutes).length : ℕ) : ℚ) = 31 / 3 ∧
    ((1033 : ℚ) / 100) ≠ 31 / 3 := by
  refine ⟨by with_unfolding_all decide, by with_unfolding_all decide,
    by with_unfolding_all decide⟩

/-- C7 (amended): folding a null duration leaves the statistics
unchanged; count and sum range over exactly the segment's non-null
samples; the emitted mean is `sum/count` rounded to two decimals and is
null — as are min and max — exactly when the segment has zero non-null
samples; and the output rows are sorted descending by mean with null
means ordered as 0. -/
theorem C7_segment_stats :
    (∀ st, pushStat st none = st) ∧
    (∀ legs k,
      (segStatsFor legs k).count =
        ((legs.filter (fun l => segKey l == k)).filterMap LegOut.leg_minutes).length ∧
      (segStatsFor legs k).sum =
        ((legs.filter (fun l => segKey l == k)).filterMap LegOut.leg_minutes).sum ∧
      (mkSegRow legs k).avg =
        (if 0 < (segStatsFor legs k).count
         then some (roundTo2 ((segStatsFor legs k).sum / ((segStatsFor legs k).count : ℚ)))
         else none) ∧
      ((segStatsFor legs k).count = 0 →
        (mkSegRow legs k).min = none ∧ (mkSegRow legs k).max = none ∧
          (mkSegRow legs k).avg = none)) ∧
    (∀ legs, (segRows legs).Pairwise (fun x y => y.avg.getD 0 ≤ x.avg.getD 0)) ∧
    (∀ legs, segRows legs = ((keyList segKey legs).map (mkSegRow legs)).mergeSort segRowLe) := by
  have hfm : ∀ (legs : List LegOut) (k : String),
      ((legs.filter (fun l => segKey l == k)).map LegOut.leg_minutes).filterMap id =
        (legs.filter (fun l => segKey l == k)).filterMap LegOut.leg_minutes := by
    intro legs k
    rw [List.filterMap_map]
    rfl
  refine ⟨fun st => rfl, ?_, ?_, fun legs => rfl⟩
  · intro legs k
    rcases foldl_pushStat ((legs.filter (fun l => segKey l == k)).map LegOut.leg_minutes)
      { count := 0, min := none, max := none, sum := 0 } with ⟨h1, h2, h3, h4⟩
    rw [hfm] at h1 h2 h3 h4
    refine ⟨by simpa using h1, by simpa using h2, rfl, ?_⟩
    intro hc
    have h1' : (segStatsFor legs k).count =
        ((legs.filter (fun l => segKey l == k)).filterMap LegOut.leg_minutes).length := by
      simpa using h1
    have hempty : (legs.filter (fun l => segKey l == k)).filterMap LegOut.leg_minutes = [] := by
      rw [hc] at h1'
      exact List.length_eq_zero.mp h1'.symm
    refine ⟨?_, ?_, ?_⟩
    · show (segStatsFor legs k).min = none
      exact h3.mpr ⟨rfl, hempty⟩
    · show (segStatsFor legs k).max = none
      exact h4.mpr ⟨rfl, hempty⟩
    · show (mkSegRow legs k).avg = none
      unfold mkSegRow
      simp [hc]
  · intro legs
    have hs := List.sorted_mergeSort segRowLe_trans segRowLe_total
      ((keyList segKey legs).map (mkSegRow legs))
    exact hs.imp (fun h => of_decide_eq_true h)

/-- C7 witness: the amended statement at a segment with zero non-null
samples (and the null fold at a concrete statistics record). -/
theorem C7_witness :
    pushStat { count := 3, min := some 2, max := some 5, sum := 9 } none =
      { count := 3, min := some 2, max := some 5, sum := 9 } ∧
    (segStatsFor wLegNull "E__F").count = 0 ∧
    ((mkSegRow wLegNull "E__F").min = none ∧ (mkSegRow wLegNull "E__F").max = none ∧
      (mkSegRow wLegNull "E__F").avg = none) :=
  ⟨C7_segment_stats.1 _, by with_unfolding_all decide,
    ((C7_segment_stats.2.1 wLegNull "E__F").2.2.2 (by with_unfolding_all decide))⟩

/-! ### C6: outlier detection -/

theorem listVar_nonneg (vs : List ℚ) : 0 ≤ listVar vs := by
  unfold listVar
  apply div_nonneg
  · apply List.sum_nonneg
    intro x hx
    rcases List.mem_map.mp hx with ⟨b, -, rfl⟩
    exact mul_self_nonneg _
  · exact_mod_cast Nat.zero_le _

/-- Over the reals, the z-score test of the source (`std ≠ 0` and
`|d| / std ≥ 3` with `std = √v`) is the square-free test used in the
executable definition. -/
theorem z_iff_real (v d : ℝ) (hv : 0 ≤ v) :
    (Real.sqrt v ≠ 0 ∧ 3 ≤ |d| / Real.sqrt v) ↔ (v ≠ 0 ∧ 9 * v ≤ d * d) := by
  rcases eq_or_lt_of_le hv with heq | hpos
  · rw [← heq]
    simp [Real.sqrt_zero]
  · have hsq : 0 < Real.sqrt v := Real.sqrt_pos.mpr hpos
    constructor
    · rintro ⟨-, h⟩
      refine ⟨ne_of_gt hpos, ?_⟩
      have h3 : 3 * Real.sqrt v ≤ |d| := (le_div_iff₀ hsq).mp h
      have hmul := mul_le_mul h3 h3 (by positivity) (abs_nonneg d)
      calc 9 * v = (3 * Real.sqrt v) * (3 * Real.sqrt v) := by
             conv_lhs => rw [← Real.mul_self_sqrt hv]
             ring
        _ ≤ |d| * |d| := hmul
        _ = d * d := abs_mul_abs_self d
    · rintro ⟨-, h⟩
      refine ⟨ne_of_gt hsq, ?_⟩
      rw [le_div_iff₀ hsq]
      have h1 : Real.sqrt (9 * v) ≤ Real.sqrt (d * d) := Real.sqrt_le_sqrt h
      have h2 : Real.sqrt (9 * v) = 3 * Real.sqrt v := by
        rw [show (9 : ℝ) = 3 ^ 2 by norm_num, Real.sqrt_mul (by positivity) v,
          Real.sqrt_sq (by norm_num)]
      have h3 : Real.sqrt (d * d) = |d| := Real.sqrt_mul_self_eq_abs d
      rw [h2, h3] at h1
      linarith

/-- The z-score condition of the source coincides with the executable
square-free condition of `segOutliers`. -/
theorem zFlagged_iff (vs : List ℚ) (v : ℚ) :
    zFlagged vs v ↔
      listVar vs ≠ 0 ∧ 9 * listVar vs ≤ (v - listMean vs) * (v - listMean vs) := by
  unfold zFlagged
  have hv : (0 : ℝ) ≤ ((listVar vs : ℚ) : ℝ) := by exact_mod_cast listVar_nonneg vs
  have habs : |((v : ℚ) : ℝ) - ((listMean vs : ℚ) : ℝ)| =
      |(((v - listMean vs : ℚ)) : ℝ)| := by
    push_cast
    ring_nf
  rw [habs, z_iff_real _ _ hv]
  constructor
  · rintro ⟨h1, h2⟩
    refine ⟨Rat.cast_ne_zero.mp h1, ?_⟩
    exact_mod_cast h2
  · rintro ⟨h1, h2⟩
    refine ⟨Rat.cast_ne_zero.mpr h1, ?_⟩
    exact_mod_cast h2

theorem mem_segOutliers_iff {k : String} {vs : List ℚ} {o : Outlier} :
    o ∈ segOutliers k vs ↔
      5 ≤ vs.length ∧ listVar vs ≠ 0 ∧
        ∃ v0 ∈ vs, 9 * listVar vs ≤ (v0 - listMean vs) * (v0 - listMean vs) ∧
          o = { segment := k, value := roundTo2 v0 } := by
  unfold segOutliers
  split_ifs with h5 hvar
  · simp only [List.not_mem_nil, false_iff]
    rintro ⟨h, -⟩
    omega
  · simp [hvar]
  · rw [List.mem_filterMap]
    constructor
    · rintro ⟨v0, hv0, hsome⟩
      refine ⟨by omega, hvar, v0, hv0, ?_⟩
      by_cases hcond : 9 * listVar vs ≤ (v0 - listMean vs) * (v0 - listMean vs)
      · rw [if_pos hcond] at hsome
        exact ⟨hcond, (Option.some_inj.mp hsome).symm⟩
      · rw [if_neg hcond] at hsome
        cases hsome
    · rintro ⟨-, -, v0, hv0, hcond, rfl⟩
      exact ⟨v0, hv0, by rw [if_pos hcond]⟩

/-- C6: the auditor flags a duration sample as an outlier if and only
if its segment has at least 5 non-null samples, the population standard
deviation is non-zero, and the absolute z-score is at least 3; each
flagged outlier reports the segment key and the value rounded to two
decimals; segments with fewer than 5 non-null samples are never
flagged. -/
theorem C6_outlier_iff_zscore :
    ∀ legs (o : Outlier),
      o ∈ auditOutliers legs ↔
        ∃ p ∈ segValues legs, 5 ≤ p.2.length ∧
          ∃ v0 ∈ p.2, zFlagged p.2 v0 ∧
            o = { segment := p.1, value := roundTo2 v0 } := by
  intro legs o
  unfold auditOutliers
  rw [List.mem_flatMap]
  constructor
  · rintro ⟨p, hp, hmem⟩
    rcases mem_segOutliers_iff.mp hmem with ⟨h5, hvar, v0, hv0, hcond, rfl⟩
    exact ⟨p, hp, h5, v0, hv0, (zFlagged_iff p.2 v0).mpr ⟨hvar, hcond⟩, rfl⟩
  · rintro ⟨p, hp, h5, v0, hv0, hz, rfl⟩
    rcases (zFlagged_iff p.2 v0).mp hz with ⟨hvar, hcond⟩
    exact ⟨p, hp, mem_segOutliers_iff.mpr ⟨h5, hvar, v0, hv0, hcond, rfl⟩⟩

/-! ### C1/C3: transfer matching -/

theorem stepBest_eq_of_notok {mw : Option ℚ} {arrive : ℚ} (acc : Option (LegB × ℚ))
    (c : LegB) (h : ¬ okWait mw (waitDiffMin arrive c.departTAMin)) :
    stepBest mw arrive acc c = acc := by
  unfold stepBest
  rw [if_pos h]

theorem stepBest_none_of_ok {mw : Option ℚ} {arrive : ℚ} (c : LegB)
    (h : okWait mw (waitDiffMin arrive c.departTAMin)) :
    stepBest mw arrive none c = some (c, waitDiffMin arrive c.departTAMin) := by
  unfold stepBest
  rw [if_neg (not_not_intro h)]

theorem stepBest_some_of_ok_lt {mw : Option ℚ} {arrive : ℚ} {b0 : LegB} {w0 : ℚ}
    (c : LegB) (h : okWait mw (waitDiffMin arrive c.departTAMin))
    (hlt : waitDiffMin arrive c.departTAMin < w0) :
    stepBest mw arrive (some (b0, w0)) c = some (c, waitDiffMin arrive c.departTAMin) := by
  unfold stepBest
  rw [if_neg (not_not_intro h)]
  dsimp only
  rw [if_pos hlt]

theorem stepBest_some_of_ok_ge {mw : Option ℚ} {arrive : ℚ} {b0 : LegB} {w0 : ℚ}
    (c : LegB) (h : okWait mw (waitDiffMin arrive c.departTAMin))
    (hge : ¬ waitDiffMin arrive c.departTAMin < w0) :
    stepBest mw arrive (some (b0, w0)) c = some (b0, w0) := by
  unfold stepBest
  rw [if_neg (not_not_intro h)]
  dsimp only
  rw [if_neg hge]

theorem stepBest_spec (mw : Option ℚ) (arrive : ℚ) (acc : Option (LegB × ℚ)) (c : LegB) :
    (stepBest mw arrive acc c = none ↔
      acc = none ∧ ¬ okWait mw (waitDiffMin arrive c.departTAMin)) ∧
    (∀ b wt, stepBest mw arrive acc c = some (b, wt) →
      (acc = some (b, wt) ∨
        (b = c ∧ wt = waitDiffMin arrive c.departTAMin ∧ okWait mw wt)) ∧
      (okWait mw (waitDiffMin arrive c.departTAMin) →
        wt ≤ waitDiffMin arrive c.departTAMin) ∧
      (∀ b0 w0, acc = some (b0, w0) → wt ≤ w0)) := by
  by_cases hok : okWait mw (waitDiffMin arrive c.departTAMin)
  · cases acc with
    | none =>
        rw [stepBest_none_of_ok c hok]
        refine ⟨by simp [hok], ?_⟩
        intro b wt h
        have hb : c = b ∧ waitDiffMin arrive c.departTAMin = wt := by
          have := Option.some_inj.mp h
          exact ⟨congrArg Prod.fst this, congrArg Prod.snd this⟩
        rcases hb with ⟨rfl, rfl⟩
        exact ⟨Or.inr ⟨rfl, rfl, hok⟩, fun _ => le_refl _, by simp⟩
    | some pair =>
        rcases pair with ⟨b0, w0⟩
        by_cases himp : waitDiffMin arrive c.departTAMin < w0
        · rw [stepBest_some_of_ok_lt c hok himp]
          refine ⟨by simp, ?_⟩
          intro b wt h
          have hb : c = b ∧ waitDiffMin arrive c.departTAMin = wt := by
            have := Option.some_inj.mp h
            exact ⟨congrArg Prod.fst this, congrArg Prod.snd this⟩
          rcases hb with ⟨rfl, rfl⟩
          refine ⟨Or.inr ⟨rfl, rfl, hok⟩, fun _ => le_refl _, ?_⟩
          intro b1 w1 h1
          have hw : w0 = w1 := congrArg Prod.snd (Option.some_inj.mp h1)
          rw [← hw]
          exact le_of_lt himp
        · rw [stepBest_some_of_ok_ge c hok himp]
          refine ⟨by simp, ?_⟩
          intro b wt h
          have hb : b0 = b ∧ w0 = wt := by
            have := Option.some_inj.mp h
            exact ⟨congrArg Prod.fst this, congrArg Prod.snd this⟩
          rcases hb with ⟨rfl, rfl⟩
          refine ⟨Or.inl rfl, fun _ => not_lt.mp himp, ?_⟩
          intro b1 w1 h1
          have hw : w0 = w1 := congrArg Prod.snd (Option.some_inj.mp h1)
          exact le_of_eq hw
  · rw [stepBest_eq_of_notok acc c hok]
    cases acc with
    | none =>
        refine ⟨by simp [hok], ?_⟩
        intro b wt h
        cases h
    | some pair =>
        rcases pair with ⟨b0, w0⟩
        refine ⟨by simp, ?_⟩
        intro b wt h
        have hb : b0 = b ∧ w0 = wt := by
          have := Option.some_inj.mp h
          exact ⟨congrArg Prod.fst this, congrArg Prod.snd this⟩
        rcases hb with ⟨rfl, rfl⟩
        refine ⟨Or.inl rfl, fun hc => absurd hc hok, ?_⟩
        intro b1 w1 h1
        have hw : w0 = w1 := congrArg Prod.snd (Option.some_inj.mp h1)
        exact le_of_eq hw

theorem foldl_stepBest (mw : Option ℚ) (arrive : ℚ) (l : List LegB) :
    ∀ acc : Option (LegB × ℚ),
      (l.foldl (stepBest mw arrive) acc = none ↔
        acc = none ∧ ∀ b ∈ l, ¬ okWait mw (waitDiffMin arrive b.departTAMin)) ∧
      (∀ b wt, l.foldl (stepBest mw arrive) acc = some (b, wt) →
        (acc = some (b, wt) ∨
          (b ∈ l ∧ wt = waitDiffMin arrive b.departTAMin ∧ okWait mw wt)) ∧
        (∀ b2 ∈ l, okWait mw (waitDiffMin arrive b2.departTAMin) →
          wt ≤ waitDiffMin arrive b2.departTAMin) ∧
        (∀ b0 w0, acc = some (b0, w0) → wt ≤ w0)) := by
  induction l with
  | nil =>
      intro acc
      constructor
      · simp
      · intro b wt h
        rw [List.foldl_nil] at h
        refine ⟨Or.inl h, by simp, ?_⟩
        intro b0 w0 h0
        rw [h] at h0
        exact le_of_eq (congrArg Prod.snd (Option.some_inj.mp h0))
  | cons c cs ih =>
      intro acc
      rw [List.foldl_cons]
      rcases ih (stepBest mw arrive acc c) with ⟨ih1, ih2⟩
      rcases stepBest_spec mw arrive acc c with ⟨s1, s2⟩
      constructor
      · rw [ih1, s1]
        constructor
        · rintro ⟨⟨hacc, hc⟩, hrest⟩
          refine ⟨hacc, ?_⟩
          intro b hb
          rcases List.mem_cons.mp hb with rfl | hb
          · exact hc
          · exact hrest b hb
        · rintro ⟨hacc, hall⟩
          exact ⟨⟨hacc, hall c (by simp)⟩, fun b hb => hall b (List.mem_cons_of_mem c hb)⟩
      · intro b wt h
        rcases ih2 b wt h with ⟨hsrc, hmin, hacc⟩
        have haccbound : ∀ b0 w0, acc = some (b0, w0) → wt ≤ w0 := by
          intro b0 w0 h0
          cases hstep : stepBest mw arrive acc c with
          | none =>
              rcases s1.mp hstep with ⟨hacc', -⟩
              rw [h0] at hacc'
              cases hacc'
          | some pr =>
              rcases pr with ⟨b1, w1⟩
              have h1 := hacc b1 w1 hstep
              have h2 := (s2 b1 w1 hstep).2.2 b0 w0 h0
              exact le_trans h1 h2
        have hheadbound : okWait mw (waitDiffMin arrive c.departTAMin) →
            wt ≤ waitDiffMin arrive c.departTAMin := by
          intro hok2
          rcases hsrc with hs | ⟨hmem, hw, hok⟩
          · exact (s2 b wt hs).2.1 hok2
          · cases hstep : stepBest mw arrive acc c with
            | none =>
                rcases s1.mp hstep with ⟨-, hnok⟩
                exact absurd hok2 hnok
            | some pr =>
                rcases pr with ⟨b1, w1⟩
                have h1 := hacc b1 w1 hstep
                have h2 := (s2 b1 w1 hstep).2.1 hok2
                exact le_trans h1 h2
        refine ⟨?_, ?_, haccbound⟩
        · rcases hsrc with hs | ⟨hmem, hw, hok⟩
          · rcases (s2 b wt hs).1 with hs' | ⟨hbc, hw, hok⟩
            · exact Or.inl hs'
            · subst hbc
              exact Or.inr ⟨List.mem_cons_self _ _, hw, hok⟩
          · exact Or.inr ⟨List.mem_cons_of_mem c hmem, hw, hok⟩
        · intro b2 hb2 hok2
          rcases List.mem_cons.mp hb2 with hb2eq | hb2
          · rw [hb2eq] at hok2 ⊢
            exact hheadbound hok2
          · exact hmin b2 hb2 hok2

theorem mem_foldl_pushIdx (l : List ℕ) :
    ∀ (acc : List ℕ) (j : ℕ), j ∈ l.foldl pushIdx acc ↔ j ∈ acc ∨ j ∈ l := by
  induction l with
  | nil => intro acc j; simp
  | cons i is ih =>
      intro acc j
      rw [List.foldl_cons, ih]
      unfold pushIdx
      split
      · rename_i hmem
        constructor
        · rintro (hj | hj)
          · exact Or.inl hj
          · exact Or.inr (List.mem_cons_of_mem i hj)
        · rintro (hj | hj)
          · exact Or.inl hj
          · rcases List.mem_cons.mp hj with heq | hj
            · rw [heq]
              exact Or.inl hmem
            · exact Or.inr hj
      · simp only [List.mem_append, List.mem_cons, List.not_mem_nil, or_false]
        tauto

theorem mem_candIdxs {len lo j : ℕ} :
    j ∈ candIdxs len lo ↔ (j = lo ∨ j = lo + 1 ∨ j = 0) ∧ j < len := by
  unfold candIdxs
  rw [mem_foldl_pushIdx]
  simp only [List.not_mem_nil, false_or, List.mem_filter, decide_eq_true_eq]
  constructor
  · rintro ⟨hj, hlt⟩
    refine ⟨?_, hlt⟩
    simpa using hj
  · rintro ⟨hj, hlt⟩
    exact ⟨by simpa using hj, hlt⟩

theorem cands_subset {bs : List LegB} {t : ℚ} {c : LegB}
    (h : c ∈ candsOf bs t) : c ∈ bs := by
  unfold candsOf at h
  rcases List.mem_map.mp h with ⟨j, hj, rfl⟩
  have hlt : j < bs.length := (mem_candIdxs.mp hj).2
  rw [List.getD_eq_getElem _ _ hlt]
  exact List.getElem_mem hlt

theorem getD_mem_candsOf {bs : List LegB} {t : ℚ} {j : ℕ}
    (hj : j = searchLo bs t ∨ j = searchLo bs t + 1 ∨ j = 0) (hlt : j < bs.length) :
    bs.getD j default ∈ candsOf bs t := by
  unfold candsOf
  exact List.mem_map.mpr ⟨j, mem_candIdxs.mpr ⟨hj, hlt⟩, rfl⟩

theorem bsLoop_spec (bs : List LegB) (t : ℚ)
    (hsorted : ∀ i j, i ≤ j → j < bs.length →
      (bs.getD i default).departTAMin ≤ (bs.getD j default).departTAMin) :
    ∀ n lo hi, hi - lo = n → lo ≤ hi → hi ≤ bs.length →
      (∀ i, i < lo → (bs.getD i default).departTAMin < t) →
      (∀ i, hi ≤ i → i < bs.length → t ≤ (bs.getD i default).departTAMin) →
      lo ≤ bsLoop bs t lo hi ∧ bsLoop bs t lo hi ≤ hi ∧
        (∀ i, i < bsLoop bs t lo hi → (bs.getD i default).departTAMin < t) ∧
        (∀ i, bsLoop bs t lo hi ≤ i → i < bs.length →
          t ≤ (bs.getD i default).departTAMin) := by
  intro n
  induction n using Nat.strong_induction_on with
  | _ n ih =>
    intro lo hi hn hlh hhl hlow hhigh
    rw [bsLoop]
    by_cases hlt : lo < hi
    · rw [dif_pos hlt]
      by_cases hmid : (bs.getD ((lo + hi) / 2) default).departTAMin < t
      · rw [if_pos hmid]
        have hrec := ih (hi - ((lo + hi) / 2 + 1)) (by omega) ((lo + hi) / 2 + 1) hi rfl
          (by omega) hhl ?_ hhigh
        · exact ⟨by omega, hrec.2.1, hrec.2.2.1, hrec.2.2.2⟩
        · intro i hi'
          rcases lt_or_ge i lo with hil | hil
          · exact hlow i hil
          · exact lt_of_le_of_lt
              (hsorted i ((lo + hi) / 2) (by omega) (by omega)) hmid
      · rw [if_neg hmid]
        have hrec := ih ((lo + hi) / 2 - lo) (by omega) lo ((lo + hi) / 2) rfl
          (by omega) (by omega) hlow ?_
        · exact ⟨hrec.1, by omega, hrec.2.2.1, hrec.2.2.2⟩
        · intro i hi1 hi2
          exact le_trans (not_lt.mp hmid) (hsorted ((lo + hi) / 2) i hi1 hi2)
    · rw [dif_neg hlt]
      have : lo = hi := by omega
      exact ⟨le_refl lo, le_of_eq this, hlow, fun i hi1 hi2 => hhigh i (by omega) hi2⟩

theorem searchLo_spec (bs : List LegB) (t : ℚ)
    (hsorted : ∀ i j, i ≤ j → j < bs.length →
      (bs.getD i default).departTAMin ≤ (bs.getD j default).departTAMin) :
    searchLo bs t ≤ bs.length ∧
      (∀ i, i < searchLo bs t → (bs.getD i default).departTAMin < t) ∧
      (∀ i, searchLo bs t ≤ i → i < bs.length →
        t ≤ (bs.getD i default).departTAMin) := by
  have h := bsLoop_spec bs t hsorted (bs.length - 0) 0 bs.length rfl (Nat.zero_le _)
    (le_refl _) (fun i hi => absurd hi (Nat.not_lt_zero i)) (fun i hi1 hi2 => absurd hi2 (by omega))
  exact ⟨h.2.1, h.2.2.1, h.2.2.2⟩

theorem sortLegBs_sorted (l : List LegB) :
    ∀ i j, i ≤ j → j < (sortLegBs l).length →
      ((sortLegBs l).getD i default).departTAMin ≤
        ((sortLegBs l).getD j default).departTAMin := by
  have hp := @List.sorted_mergeSort LegB (fun a b => decide (a.departTAMin ≤ b.departTAMin))
    (fun a b c h1 h2 => decide_eq_true
      (le_trans (of_decide_eq_true h1) (of_decide_eq_true h2)))
    (fun a b => by
      rcases le_total a.departTAMin b.departTAMin with h | h
      · simp [h]
      · simp [h]) l
  intro i j hij hj
  rcases eq_or_lt_of_le hij with rfl | hlt
  · exact le_refl _
  · have hi : i < (sortLegBs l).length := lt_of_lt_of_le hlt (le_of_lt hj)
    rw [List.getD_eq_getElem _ _ hi, List.getD_eq_getElem _ _ hj]
    exact of_decide_eq_true
      (List.pairwise_iff_getElem.mp hp i j hi hj hlt)

theorem waitDiff_of_le {t d : ℚ} (h : t ≤ d) : waitDiffMin t d = d - t := by
  unfold waitDiffMin
  rw [if_neg (not_lt.mpr (sub_nonneg.mpr h))]

theorem waitDiff_of_lt {t d : ℚ} (h : d < t) : waitDiffMin t d = d - t + 24 * 60 := by
  unfold waitDiffMin
  rw [if_pos (sub_neg.mpr h)]

/-- The three-candidate set always contains an outbound leg of globally
minimal wait, for a sorted outbound list. -/
theorem cands_cover (bs : List LegB) (t : ℚ)
    (hsorted : ∀ i j, i ≤ j → j < bs.length →
      (bs.getD i default).departTAMin ≤ (bs.getD j default).departTAMin)
    (hne : bs ≠ []) :
    ∃ c ∈ candsOf bs t, ∀ b ∈ bs,
      waitDiffMin t c.departTAMin ≤ waitDiffMin t b.departTAMin := by
  have hlen : 0 < bs.length := List.length_pos.mpr hne
  rcases searchLo_spec bs t hsorted with ⟨hsl, hlow, hhigh⟩
  have hbound : ∀ b ∈ bs, ∃ j, j < bs.length ∧ bs.getD j default = b := by
    intro b hb
    rcases List.mem_iff_getElem.mp hb with ⟨j, hj, he⟩
    exact ⟨j, hj, by rw [List.getD_eq_getElem _ _ hj, he]⟩
  by_cases hcase : searchLo bs t < bs.length
  · -- both the floor candidate and the first-of-day candidate exist
    set lo := searchLo bs t with hlodef
    have hc1 : bs.getD lo default ∈ candsOf bs t :=
      getD_mem_candsOf (Or.inl rfl) hcase
    have hc0 : bs.getD 0 default ∈ candsOf bs t :=
      getD_mem_candsOf (Or.inr (Or.inr rfl)) hlen
    have hkey : ∀ b ∈ bs,
        waitDiffMin t (bs.getD lo default).departTAMin ≤ waitDiffMin t b.departTAMin ∨
        waitDiffMin t (bs.getD 0 default).departTAMin ≤ waitDiffMin t b.departTAMin := by
      intro b hb
      rcases hbound b hb with ⟨j, hj, rfl⟩
      by_cases hjt : t ≤ (bs.getD j default).departTAMin
      · left
        have hjlo : lo ≤ j := by
          by_contra hc
          exact absurd hjt (not_le.mpr (hlow j (by omega)))
        have h1 : t ≤ (bs.getD lo default).departTAMin := hhigh lo (le_refl _) hcase
        rw [waitDiff_of_le h1, waitDiff_of_le hjt]
        have := hsorted lo j hjlo hj
        linarith
      · right
        push_neg at hjt
        have h0j : (bs.getD 0 default).departTAMin ≤ (bs.getD j default).departTAMin :=
          hsorted 0 j (Nat.zero_le j) hj
        have h0t : (bs.getD 0 default).departTAMin < t := lt_of_le_of_lt h0j hjt
        rw [waitDiff_of_lt h0t, waitDiff_of_lt hjt]
        linarith
    by_cases hcmp : waitDiffMin t ((bs.getD 0 default).departTAMin) ≤
        waitDiffMin t ((bs.getD lo default).departTAMin)
    · refine ⟨bs.getD 0 default, hc0, ?_⟩
      intro b hb
      rcases hkey b hb with h | h
      · exact le_trans hcmp h
      · exact h
    · refine ⟨bs.getD lo default, hc1, ?_⟩
      intro b hb
      rcases hkey b hb with h | h
      · exact h
      · exact le_trans (le_of_lt (not_le.mp hcmp)) h
  · -- no same-day departure: every leg wraps, the earliest departure wins
    have hc0 : bs.getD 0 default ∈ candsOf bs t :=
      getD_mem_candsOf (Or.inr (Or.inr rfl)) hlen
    refine ⟨bs.getD 0 default, hc0, ?_⟩
    intro b hb
    rcases hbound b hb with ⟨j, hj, rfl⟩
    have hjt : (bs.getD j default).departTAMin < t := hlow j (by omega)
    have h0j : (bs.getD 0 default).departTAMin ≤ (bs.getD j default).departTAMin :=
      hsorted 0 j (Nat.zero_le j) hj
    have h0t : (bs.getD 0 default).departTAMin < t := lt_of_le_of_lt h0j hjt
    rw [waitDiff_of_lt h0t, waitDiff_of_lt hjt]
    linarith

theorem okWait_mono {mw : Option ℚ} {w w' : ℚ} (hle : w' ≤ w) (h : okWait mw w) :
    okWait mw w' := by
  intro m hm
  exact le_trans hle (h m hm)

theorem waitDiff_nonneg {arrive depart : ℚ} (ha : arrive < 1440) (hd : 0 ≤ depart) :
    0 ≤ waitDiffMin arrive depart := by
  unfold waitDiffMin
  dsimp only
  split_ifs with h
  · linarith
  · linarith [not_lt.mp h]

/-- Characterization of the per-inbound-leg matching step over a sorted
outbound list: a pair is emitted iff some outbound leg satisfies the
max-wait bound, and the emitted pair's outbound leg attains the global
minimum wait. -/
theorem processLegA_spec (bs : List LegB) (mw : Option ℚ) (a : LegA)
    (hsorted : ∀ i j, i ≤ j → j < bs.length →
      (bs.getD i default).departTAMin ≤ (bs.getD j default).departTAMin) :
    ((∃ p, processLegA bs mw a = some p) ↔
      ∃ b ∈ bs, okWait mw (waitDiffMin a.arriveTAMin b.departTAMin)) ∧
    (∀ p, processLegA bs mw a = some p →
      ∃ b ∈ bs, p.to_train_id = b.trainId ∧ p.depart_ta_time = b.departTA ∧
        p.wait_min = waitDiffMin a.arriveTAMin b.departTAMin ∧
        okWait mw p.wait_min ∧
        ∀ b2 ∈ bs, p.wait_min ≤ waitDiffMin a.arriveTAMin b2.departTAMin) := by
  rcases foldl_stepBest mw a.arriveTAMin (candsOf bs a.arriveTAMin) none with ⟨f1, f2⟩
  constructor
  · constructor
    · rintro ⟨p, hp⟩
      unfold processLegA at hp
      cases hpick : pickBest mw a.arriveTAMin (candsOf bs a.arriveTAMin) with
      | none =>
          rw [hpick] at hp
          cases hp
      | some pr =>
          rcases pr with ⟨b, wt⟩
          rcases f2 b wt hpick with ⟨hsrc, -, -⟩
          rcases hsrc with hs | ⟨hmem, hw, hok⟩
          · cases hs
          · refine ⟨b, cands_subset hmem, ?_⟩
            rw [← hw]
            exact hok
    · rintro ⟨b, hb, hok⟩
      have hne : bs ≠ [] := List.ne_nil_of_mem hb
      rcases cands_cover bs a.arriveTAMin hsorted hne with ⟨c, hc, hcmin⟩
      have hokc : okWait mw (waitDiffMin a.arriveTAMin c.departTAMin) :=
        okWait_mono (hcmin b hb) hok
      unfold processLegA
      cases hpick : pickBest mw a.arriveTAMin (candsOf bs a.arriveTAMin) with
      | none =>
          rcases f1.mp hpick with ⟨-, hall⟩
          exact absurd hokc (hall c hc)
      | some pr =>
          rcases pr with ⟨b', wt⟩
          exact ⟨_, rfl⟩
  · intro p hp
    unfold processLegA at hp
    cases hpick : pickBest mw a.arriveTAMin (candsOf bs a.arriveTAMin) with
    | none =>
        rw [hpick] at hp
        cases hp
    | some pr =>
        rcases pr with ⟨b, wt⟩
        rw [hpick] at hp
        rcases f2 b wt hpick with ⟨hsrc, hmin, -⟩
        rcases hsrc with hs | ⟨hmem, hw, hok⟩
        · cases hs
        · have hpfields : p.to_train_id = b.trainId ∧ p.depart_ta_time = b.departTA ∧
              p.wait_min = wt := by
            rcases Option.some_inj.mp hp with rfl
            exact ⟨rfl, rfl, rfl⟩
          rcases hpfields with ⟨hf1, hf2, hf3⟩
          refine ⟨b, cands_subset hmem, hf1, hf2, by rw [hf3, hw], ?_, ?_⟩
          · rw [hf3]
            exact hok
          · intro b2 hb2
            have hne : bs ≠ [] := List.ne_nil_of_mem hb2
            rcases cands_cover bs a.arriveTAMin hsorted hne with ⟨c, hc, hcmin⟩
            have hokc : okWait mw (waitDiffMin a.arriveTAMin c.departTAMin) :=
              okWait_mono (le_trans (hcmin b (cands_subset hmem)) (le_of_eq hw.symm)) hok
            have h1 : wt ≤ waitDiffMin a.arriveTAMin c.departTAMin := hmin c hc hokc
            have h2 : waitDiffMin a.arriveTAMin c.departTAMin ≤
                waitDiffMin a.arriveTAMin b2.departTAMin := hcmin b2 hb2
            rw [hf3]
            exact le_trans h1 h2

/-- Membership in `buildTransferPairs`: a pair is exactly a successful
match for some inbound leg. -/
theorem mem_buildTransferPairs_iff {stopsPre stopsPost : List StopRow}
    {trains : String → Option TrainMeta} {via dest : String} {mw : Option ℚ}
    {p : PairResult} :
    p ∈ buildTransferPairs stopsPre stopsPost trains via dest mw ↔
      ∃ a ∈ mkLegAs trains via stopsPre,
        processLegA (sortLegBs (mkLegBs trains dest stopsPost)) mw a = some p := by
  unfold buildTransferPairs
  rw [List.mem_mergeSort, List.mem_filterMap]

/-- C3: every emitted `TransferPair` has a non-negative wait (given
arrival and departure minutes in `[0, 1440)`), and when a max-wait
bound is supplied no emitted pair exceeds it. -/
theorem C3_wait_nonneg_and_bounded :
    ∀ stopsPre stopsPost (trains : String → Option TrainMeta) via dest mw p,
      p ∈ buildTransferPairs stopsPre stopsPost trains via dest mw →
      (∀ a ∈ mkLegAs trains via stopsPre,
        0 ≤ a.arriveTAMin ∧ a.arriveTAMin < 1440) →
      (∀ b ∈ mkLegBs trains dest stopsPost,
        0 ≤ b.departTAMin ∧ b.departTAMin < 1440) →
      0 ≤ p.wait_min ∧ ∀ m, mw = some m → p.wait_min ≤ m := by
  intro stopsPre stopsPost trains via dest mw p hp harr hdep
  rcases mem_buildTransferPairs_iff.mp hp with ⟨a, ha, hproc⟩
  rcases (processLegA_spec (sortLegBs (mkLegBs trains dest stopsPost)) mw a
      (sortLegBs_sorted _)).2 p hproc with ⟨b, hb, -, -, hw, hok, -⟩
  have hbmem : b ∈ mkLegBs trains dest stopsPost := by
    unfold sortLegBs at hb
    exact List.mem_mergeSort.mp hb
  constructor
  · rw [hw]
    exact waitDiff_nonneg (harr a ha).2 (hdep b hbmem).1
  · exact hok

/-- C1: for every inbound leg, `buildTransferPairs` emits a
`TransferPair` iff the outbound set contains a leg whose circular wait
satisfies the optional max-wait bound; the emitted pair's outbound leg
attains the global minimum wait over all outbound legs; and the
three-element candidate set always contains a global-minimum-wait
outbound leg (all minutes in `[0, 1440)`, outbound list sorted as
`buildTransferPairs` sorts it). -/
theorem C1_nearest_feasible_transfer :
    (∀ stopsPre stopsPost (trains : String → Option TrainMeta) via dest mw,
      buildTransferPairs stopsPre stopsPost trains via dest mw =
        ((mkLegAs trains via stopsPre).filterMap
          (processLegA (sortLegBs (mkLegBs trains dest stopsPost)) mw)).mergeSort pairLe) ∧
    (∀ l i j, i ≤ j → j < (sortLegBs l).length →
      ((sortLegBs l).getD i default).departTAMin ≤
        ((sortLegBs l).getD j default).departTAMin) ∧
    (∀ (bs : List LegB) (mw : Option ℚ) (a : LegA),
      (∀ i j, i ≤ j → j < bs.length →
        (bs.getD i default).departTAMin ≤ (bs.getD j default).departTAMin) →
      0 ≤ a.arriveTAMin → a.arriveTAMin < 1440 →
      (∀ b ∈ bs, 0 ≤ b.departTAMin ∧ b.departTAMin < 1440) →
      ((∃ p, processLegA bs mw a = some p) ↔
        ∃ b ∈ bs, okWait mw (waitDiffMin a.arriveTAMin b.departTAMin)) ∧
      (∀ p, processLegA bs mw a = some p →
        ∃ b ∈ bs, p.to_train_id = b.trainId ∧
          p.wait_min = waitDiffMin a.arriveTAMin b.departTAMin ∧
          ∀ b2 ∈ bs, p.wait_min ≤ waitDiffMin a.arriveTAMin b2.departTAMin) ∧
      (bs ≠ [] → ∃ c ∈ candsOf bs a.arriveTAMin, ∀ b ∈ bs,
        waitDiffMin a.arriveTAMin c.departTAMin ≤
          waitDiffMin a.arriveTAMin b.departTAMin)) := by
  refine ⟨fun _ _ _ _ _ _ => rfl, fun l => sortLegBs_sorted l, ?_⟩
  intro bs mw a hsorted _ _ _
  rcases processLegA_spec bs mw a hsorted with ⟨hiff, hmin⟩
  refine ⟨hiff, ?_, fun hne => cands_cover bs a.arriveTAMin hsorted hne⟩
  intro p hp
  rcases hmin p hp with ⟨b, hb, hf1, -, hf3, -, hall⟩
  exact ⟨b, hb, hf1, hf3, hall⟩

/-- C3 witness: the concrete transfer scenario under a 30-minute
bound emits `wPair` with `0 ≤ wait_min = 25 ≤ 30`. -/
theorem C3_witness :
    wPair ∈ buildTransferPairs wStopsPre wStopsPost (fun _ => none)
      "Palmerah" "Rangkasbitung" (some 30) ∧
    0 ≤ wPair.wait_min ∧ (∀ m, (some (30 : ℚ)) = some m → wPair.wait_min ≤ m) :=
  ⟨by with_unfolding_all decide,
   (C3_wait_nonneg_and_bounded wStopsPre wStopsPost (fun _ => none)
      "Palmerah" "Rangkasbitung" (some 30) wPair
      (by with_unfolding_all decide) (by with_unfolding_all decide)
      (by with_unfolding_all decide)).1,
   (C3_wait_nonneg_and_bounded wStopsPre wStopsPost (fun _ => none)
      "Palmerah" "Rangkasbitung" (some 30) wPair
      (by with_unfolding_all decide) (by with_unfolding_all decide)
      (by with_unfolding_all decide)).2⟩

/-- C1 witness: the matching characterization at the concrete sorted
outbound list (departures 430 and 465) and arrival 440 under a
30-minute bound. -/
theorem C1_witness :
    (0 ≤ wLegA440.arriveTAMin) ∧ (wLegA440.arriveTAMin < 1440) ∧
    (((∃ p, processLegA (sortLegBs [wLegB465, wLegB430]) (some 30) wLegA440 = some p) ↔
      ∃ b ∈ sortLegBs [wLegB465, wLegB430],
        okWait (some 30) (waitDiffMin wLegA440.arriveTAMin b.departTAMin)) ∧
     (∀ p, processLegA (sortLegBs [wLegB465, wLegB430]) (some 30) wLegA440 = some p →
        ∃ b ∈ sortLegBs [wLegB465, wLegB430], p.to_train_id = b.trainId ∧
          p.wait_min = waitDiffMin wLegA440.arriveTAMin b.departTAMin ∧
          ∀ b2 ∈ sortLegBs [wLegB465, wLegB430],
            p.wait_min ≤ waitDiffMin wLegA440.arriveTAMin b2.departTAMin) ∧
     (sortLegBs [wLegB465, wLegB430] ≠ [] →
       ∃ c ∈ candsOf (sortLegBs [wLegB465, wLegB430]) wLegA440.arriveTAMin,
         ∀ b ∈ sortLegBs [wLegB465, wLegB430],
           waitDiffMin wLegA440.arriveTAMin c.departTAMin ≤
             waitDiffMin wLegA440.arriveTAMin b.departTAMin)) :=
  ⟨by with_unfolding_all decide, by with_unfolding_all decide,
   C1_nearest_feasible_transfer.2.2 (sortLegBs [wLegB465, wLegB430]) (some 30) wLegA440
     (sortLegBs_sorted _) (by with_unfolding_all decide)
     (by with_unfolding_all decide) (by with_unfolding_all decide)⟩

/-- C8 witness: the amended behavior at the concrete malformed row. -/
theorem C8_witness :
    loadLegs (some [wBadLegRow]) none = .ok (mapWithIdx legRowToOut 0 [wBadLegRow]) ∧
    (legRowToOut 0 wBadLegRow).seq = (0 : ℚ) + 1 ∧
    (legRowToOut 0 wBadLegRow).leg_minutes = none :=
  ⟨(C8_loadLegs_error_iff_missing (some [wBadLegRow]) none).2.1 [wBadLegRow] rfl,
   (C8_loadLegs_error_iff_missing (some [wBadLegRow]) none).2.2.1 0 wBadLegRow (by decide),
   (C8_loadLegs_error_iff_missing (some [wBadLegRow]) none).2.2.2 0 wBadLegRow (by decide)⟩

end KRL
